import Mathlib

namespace Chessatk

/-! 64-bit bitboard primitives. Rust `u64` values are modelled as `Nat` kept below `2^64`;
`<<` masks out overflowing bits like a `u64` shift, `!` is complement within 64 bits. -/

def mask64 : Nat := 2^64 - 1
def not64 (x : Nat) : Nat := x ^^^ mask64
def shl64 (x n : Nat) : Nat := (x <<< n) % 2^64
/-- `u8` wrapping subtraction (release-mode semantics of `a - b` on `u8`). -/
def wrapSub8 (a b : Nat) : Nat := (a + 256 - b % 256) % 256
/-- `u64::trailing_zeros` (64 when the input is 0). -/
def tz64 (x : Nat) : Nat := ((List.range 64).find? (fun i => x.testBit i)).getD 64
/-- Index of the highest set bit: models `x.leading_zeros() ^ 63` for `0 < x < 2^64`
(0 when no bit is set; the source only evaluates it on nonzero values). -/
def msb64 (x : Nat) : Nat := (List.range 64).foldl (fun acc i => if x.testBit i then i else acc) 0
/-- The indices of the set bits of a bitboard, in increasing order: the sequence of
values produced by the source's `pop_lsb` loop (`while bb > 0 { pop_lsb(&mut bb) }`). -/
def bitIdxs (x : Nat) : List Nat := (List.range 64).filter (fun i => x.testBit i)

def FILE_H : Nat := 0x8080808080808080
def FILE_G : Nat := 0x4040404040404040
def FILE_B : Nat := 0x202020202020202
def FILE_A : Nat := 0x101010101010101

def RANK_1 : Nat := 0xff
def RANK_4 : Nat := 0xff000000
def RANK_5 : Nat := 0xff00000000
def RANK_8 : Nat := 0xff00000000000000

def WHITE : Fin 2 := 0
def BLACK : Fin 2 := 1

def PAWN : Fin 6 := 0
def ROOK : Fin 6 := 1
def KNIGHT : Fin 6 := 2
def BISHOP : Fin 6 := 3
def QUEEN : Fin 6 := 4
def KING : Fin 6 := 5

def NORTH : Nat := 0
def SOUTH : Nat := 1
def EAST : Nat := 2
def WEST : Nat := 3
def NORTH_EAST : Nat := 4
def NORTH_WEST : Nat := 5
def SOUTH_EAST : Nat := 6
def SOUTH_WEST : Nat := 7

/-! Geometry tables (`gen_pawn_attacks`, `gen_king_attacks`, `gen_knight_attacks`,
`gen_rays`): the `const fn` table generators are translated to per-index functions;
index 64 of each ray table is the empty-board sentinel, as in the source. -/

def pawnAttacks (c : Fin 2) (i : Nat) : Nat :=
  if i < 64 then
    let bb := shl64 1 i
    if c = WHITE then (shl64 bb 9 &&& not64 FILE_A) ||| (shl64 bb 7 &&& not64 FILE_H)
    else ((bb >>> 9) &&& not64 FILE_H) ||| ((bb >>> 7) &&& not64 FILE_A)
  else 0

def kingAttacks (i : Nat) : Nat :=
  if i < 64 then
    let bb := shl64 1 i
    ((shl64 bb 7 ||| bb >>> 9 ||| bb >>> 1) &&& not64 FILE_H)
      ||| ((shl64 bb 9 ||| bb >>> 7 ||| shl64 bb 1) &&& not64 FILE_A)
      ||| (bb >>> 8 ||| shl64 bb 8)
  else 0

def knightAttacks (i : Nat) : Nat :=
  if i < 64 then
    let bb := shl64 1 i
    ((shl64 bb 15 ||| bb >>> 17) &&& not64 FILE_H)
      ||| ((bb >>> 15 ||| shl64 bb 17) &&& not64 FILE_A)
      ||| ((shl64 bb 6 ||| bb >>> 10) &&& not64 (FILE_G ||| FILE_H))
      ||| ((bb >>> 6 ||| shl64 bb 10) &&& not64 (FILE_A ||| FILE_B))
  else 0

def northRay (i : Nat) : Nat := if i < 64 then shl64 0x0101010101010100 i else 0
def southRay (i : Nat) : Nat := if i < 64 then 0x0080808080808080 >>> (63 - i) else 0
def eastRay (i : Nat) : Nat := if i < 64 then 2 * ((1 <<< (i ||| 7)) - (1 <<< i)) else 0
def westRay (i : Nat) : Nat := if i < 64 then (1 <<< i) - (1 <<< (i &&& 56)) else 0

/-- One step of the file loop in `gen_north_east_rays` / `gen_south_east_rays`:
`bb = (bb << 1) & (!FILE_A)`. -/
def neStep (x : Nat) : Nat := shl64 x 1 &&& not64 FILE_A
def neBase : Nat → Nat
  | 0 => 0x8040201008040200
  | f + 1 => neStep (neBase f)
def neRay (i : Nat) : Nat := if i < 64 then shl64 (neBase (i % 8)) (8 * (i / 8)) else 0

def seBase : Nat → Nat
  | 0 => 0x2040810204080
  | f + 1 => neStep (seBase f)
def seRay (i : Nat) : Nat := if i < 64 then (seBase (i % 8)) >>> (56 - 8 * (i / 8)) else 0

/-- One step of the file loop in `gen_north_west_rays` / `gen_south_west_rays`:
`bb = (bb >> 1) & (!FILE_H)`; the loop walks files 7 down to 0. -/
def nwStep (x : Nat) : Nat := (x >>> 1) &&& not64 FILE_H
def nwBaseAux : Nat → Nat
  | 0 => 0x102040810204000
  | k + 1 => nwStep (nwBaseAux k)
def nwRay (i : Nat) : Nat := if i < 64 then shl64 (nwBaseAux (7 - i % 8)) (8 * (i / 8)) else 0

def swBaseAux : Nat → Nat
  | 0 => 0x40201008040201
  | k + 1 => nwStep (swBaseAux k)
def swRay (i : Nat) : Nat := if i < 64 then (swBaseAux (7 - i % 8)) >>> (56 - 8 * (i / 8)) else 0

/-- `RAYS[dir][sq]` (with `sq = 64` the empty sentinel entry). -/
def rays (dir : Nat) (sq : Nat) : Nat :=
  if dir = NORTH then northRay sq
  else if dir = SOUTH then southRay sq
  else if dir = EAST then eastRay sq
  else if dir = WEST then westRay sq
  else if dir = NORTH_EAST then neRay sq
  else if dir = NORTH_WEST then nwRay sq
  else if dir = SOUTH_EAST then seRay sq
  else swRay sq

/-! Data model (`board.rs`). -/

inductive Color where
  | White : Color
  | Black : Color
deriving DecidableEq

def Color.asNum : Color → Fin 2
  | Color.White => WHITE
  | Color.Black => BLACK

/-- `impl std::ops::Not for Color`. -/
def Color.not : Color → Color
  | Color.Black => Color.White
  | Color.White => Color.Black

inductive PromotionTarget where
  | Knight : PromotionTarget
  | Bishop : PromotionTarget
  | Rook : PromotionTarget
  | Queen : PromotionTarget
deriving DecidableEq

structure Move where
  origin : Nat
  destination : Nat
  promotion : Option PromotionTarget
deriving DecidableEq

/-- A `[u64; 6]` row of the piece table, one bitboard per piece kind. -/
structure PieceRow where
  pawn : Nat
  rook : Nat
  knight : Nat
  bishop : Nat
  queen : Nat
  king : Nat
  deriving DecidableEq

def PieceRow.get (a : PieceRow) : Fin 6 → Nat
  | 0 => a.pawn
  | 1 => a.rook
  | 2 => a.knight
  | 3 => a.bishop
  | 4 => a.queen
  | 5 => a.king

def PieceRow.set (a : PieceRow) : Fin 6 → Nat → PieceRow
  | 0, v => { a with pawn := v }
  | 1, v => { a with rook := v }
  | 2, v => { a with knight := v }
  | 3, v => { a with bishop := v }
  | 4, v => { a with queen := v }
  | 5, v => { a with king := v }

/-- A `[u64; 6]; 2]` piece table, indexed by color then piece kind. -/
structure PieceTable where
  white : PieceRow
  black : PieceRow
  deriving DecidableEq

def PieceTable.get (a : PieceTable) : Fin 2 → PieceRow
  | 0 => a.white
  | 1 => a.black

def PieceTable.set (a : PieceTable) : Fin 2 → PieceRow → PieceTable
  | 0, v => { a with white := v }
  | 1, v => { a with black := v }

/-- A `[u64; 2]` pair of bitboards indexed by color. -/
structure ColorPair where
  white : Nat
  black : Nat
  deriving DecidableEq

def ColorPair.get (a : ColorPair) : Fin 2 → Nat
  | 0 => a.white
  | 1 => a.black

def ColorPair.set (a : ColorPair) : Fin 2 → Nat → ColorPair
  | 0, v => { a with white := v }
  | 1, v => { a with black := v }

structure Board where
  piecesArr : PieceTable
  all_piecesArr : ColorPair
  attackableArr : ColorPair
  occupied : Nat
  unoccupied : Nat
  deriving DecidableEq

/-- `pieces[color][piece]`. -/
def Board.pieces (b : Board) (c : Fin 2) (p : Fin 6) : Nat := (b.piecesArr.get c).get p

/-- `all_pieces[color]`. -/
def Board.all_pieces (b : Board) (c : Fin 2) : Nat := b.all_piecesArr.get c

/-- `attackable[color]`. -/
def Board.attackable (b : Board) (c : Fin 2) : Nat := b.attackableArr.get c

def Board.empty : Board :=
  { piecesArr := { white := ⟨0, 0, 0, 0, 0, 0⟩, black := ⟨0, 0, 0, 0, 0, 0⟩ },
    all_piecesArr := ⟨0, 0⟩, attackableArr := ⟨0, 0⟩,
    occupied := 0, unoccupied := 0 }

def Board.updateDerivedBitboards (b : Board) : Board :=
  let all := fun (c : Fin 2) =>
    b.pieces c PAWN ||| b.pieces c ROOK ||| b.pieces c BISHOP ||| b.pieces c QUEEN
      ||| b.pieces c KING ||| b.pieces c KNIGHT
  let occupied := all WHITE ||| all BLACK
  { b with
    all_piecesArr := ⟨all WHITE, all BLACK⟩,
    attackableArr := ⟨all WHITE &&& not64 (b.pieces WHITE KING),
                      all BLACK &&& not64 (b.pieces BLACK KING)⟩,
    occupied := occupied, unoccupied := not64 occupied }

def Board.removePiece (b : Board) (color : Fin 2) (piece : Fin 6) (index : Nat) : Board :=
  let shifted := shl64 1 index
  let occupied := b.occupied ^^^ shifted
  { piecesArr := b.piecesArr.set color
      ((b.piecesArr.get color).set piece (b.pieces color piece ^^^ shifted)),
    all_piecesArr := b.all_piecesArr.set color (b.all_pieces color ^^^ shifted),
    occupied := occupied,
    unoccupied := not64 occupied,
    attackableArr := if piece ≠ KING then
        b.attackableArr.set color (b.attackable color ^^^ shifted)
      else b.attackableArr }

def Board.addPiece (b : Board) (color : Fin 2) (piece : Fin 6) (index : Nat) : Board :=
  let shifted := shl64 1 index
  let occupied := b.occupied ||| shifted
  { piecesArr := b.piecesArr.set color
      ((b.piecesArr.get color).set piece (b.pieces color piece ||| shifted)),
    all_piecesArr := b.all_piecesArr.set color (b.all_pieces color ||| shifted),
    occupied := occupied,
    unoccupied := not64 occupied,
    attackableArr := if piece ≠ KING then
        b.attackableArr.set color (b.attackable color ^^^ shifted)
      else b.attackableArr }

structure Position where
  squares : Board
  white_kingside_castle : Bool
  white_queenside_castle : Bool
  black_kingside_castle : Bool
  black_queenside_castle : Bool
  en_passant_square : Nat
  side_to_move : Color
deriving DecidableEq

/-- `piece_color ^ 1`. -/
def oppIdx : Fin 2 → Fin 2
  | 0 => 1
  | 1 => 0

/-- Step 1 of `apply_move`: identify the mover's color by probing `all_pieces[BLACK]`
at the origin (`((all_pieces[BLACK] & shifted_origin) > 0) as usize`). -/
def Position.pieceColorAt (p : Position) (origin : Nat) : Fin 2 :=
  if 0 < p.squares.all_pieces BLACK &&& shl64 1 origin then BLACK else WHITE

/-- Step 1 of `apply_move`: identify the mover's piece kind by probing the mover's
bitboards at the origin, defaulting to `KING`. -/
def Position.pieceKindAt (p : Position) (piece_color : Fin 2) (origin : Nat) : Fin 6 :=
  let shifted_origin := shl64 1 origin
  if 0 < p.squares.pieces piece_color PAWN &&& shifted_origin then PAWN
  else if 0 < p.squares.pieces piece_color ROOK &&& shifted_origin then ROOK
  else if 0 < p.squares.pieces piece_color KNIGHT &&& shifted_origin then KNIGHT
  else if 0 < p.squares.pieces piece_color BISHOP &&& shifted_origin then BISHOP
  else if 0 < p.squares.pieces piece_color QUEEN &&& shifted_origin then QUEEN
  else KING

/-- Step 2 of `apply_move`: the captured piece (if any) at the destination, probed on
the opponent's bitboards, including the king. -/
def Position.destPieceKindAt (p : Position) (destination_piece_color : Fin 2)
    (destination : Nat) : Option (Fin 6) :=
  let shifted_destination := shl64 1 destination
  if 0 < p.squares.pieces destination_piece_color PAWN &&& shifted_destination then some PAWN
  else if 0 < p.squares.pieces destination_piece_color ROOK &&& shifted_destination then some ROOK
  else if 0 < p.squares.pieces destination_piece_color KNIGHT &&& shifted_destination then some KNIGHT
  else if 0 < p.squares.pieces destination_piece_color BISHOP &&& shifted_destination then some BISHOP
  else if 0 < p.squares.pieces destination_piece_color QUEEN &&& shifted_destination then some QUEEN
  else if 0 < p.squares.pieces destination_piece_color KING &&& shifted_destination then some KING
  else none

/-- The "Piece movement" block of `apply_move`: remove the mover from the origin,
remove the captured piece (if any) from the destination, and add the mover (or the
promoted piece) at the destination. -/
def applyMoveMovement (p : Position) (m : Move) (piece_color : Fin 2)
    (piece_kind : Fin 6) : Board :=
  let destination_piece_color := oppIdx piece_color
  let destination_piece_kind := p.destPieceKindAt destination_piece_color m.destination
  let b := p.squares.removePiece piece_color piece_kind m.origin
  let b := match destination_piece_kind with
    | some pk => b.removePiece destination_piece_color pk m.destination
    | none => b
  match m.promotion with
  | some PromotionTarget.Knight => b.addPiece piece_color KNIGHT m.destination
  | some PromotionTarget.Bishop => b.addPiece piece_color BISHOP m.destination
  | some PromotionTarget.Rook => b.addPiece piece_color ROOK m.destination
  | some PromotionTarget.Queen => b.addPiece piece_color QUEEN m.destination
  | none => b.addPiece piece_color piece_kind m.destination

/-- The special-handling block of `apply_move` (`match (piece_color, piece_kind)`):
castling rook relocation plus king-move rights revocation, double-push
`en_passant_square` setting, and the en-passant pawn removal. `old_eps` is the
pre-move `en_passant_square`; `q` already has the moved board and a cleared
`en_passant_square`. -/
def applyMoveSpecial (old_eps : Nat) (m : Move) (piece_color : Fin 2)
    (piece_kind : Fin 6) (q : Position) : Position :=
  if piece_color = WHITE ∧ piece_kind = KING then
    let b2 :=
      if m.origin = 4 ∧ m.destination = 2 then
        (q.squares.removePiece WHITE ROOK 0).addPiece WHITE ROOK 3
      else if m.origin = 4 ∧ m.destination = 6 then
        (q.squares.removePiece WHITE ROOK 7).addPiece WHITE ROOK 5
      else q.squares
    { q with squares := b2, white_kingside_castle := false, white_queenside_castle := false }
  else if piece_color = BLACK ∧ piece_kind = KING then
    let b2 :=
      if m.origin = 60 ∧ m.destination = 62 then
        (q.squares.removePiece BLACK ROOK 63).addPiece BLACK ROOK 61
      else if m.origin = 60 ∧ m.destination = 58 then
        (q.squares.removePiece BLACK ROOK 56).addPiece BLACK ROOK 59
      else q.squares
    { q with squares := b2, black_kingside_castle := false, black_queenside_castle := false }
  else if piece_color = WHITE ∧ piece_kind = PAWN then
    if wrapSub8 m.destination m.origin = 16 then
      { q with en_passant_square := shl64 1 ((m.origin + 8) % 256) }
    else if shl64 1 m.destination = old_eps then
      { q with squares := q.squares.removePiece BLACK PAWN (wrapSub8 m.destination 8) }
    else q
  else if piece_color = BLACK ∧ piece_kind = PAWN then
    if wrapSub8 m.origin m.destination = 16 then
      { q with en_passant_square := shl64 1 (wrapSub8 m.origin 8) }
    else if shl64 1 m.destination = old_eps then
      { q with squares := q.squares.removePiece WHITE PAWN ((m.destination + 8) % 256) }
    else q
  else q

/-- The "Revoke castling rights if rook moved or was captured" block of `apply_move`:
an `if / else if` chain, so only the first matching branch fires. -/
def applyMoveRevoke (m : Move) (q : Position) : Position :=
  if m.origin = 7 ∨ m.destination = 7 then { q with white_kingside_castle := false }
  else if m.origin = 0 ∨ m.destination = 0 then { q with white_queenside_castle := false }
  else if m.origin = 63 ∨ m.destination = 63 then { q with black_kingside_castle := false }
  else if m.origin = 56 ∨ m.destination = 56 then { q with black_queenside_castle := false }
  else q

def Position.applyMove (p : Position) (m : Move) : Position :=
  let piece_color := p.pieceColorAt m.origin
  let piece_kind := p.pieceKindAt piece_color m.origin
  let b := applyMoveMovement p m piece_color piece_kind
  let old_eps := p.en_passant_square
  -- the en-passant square is cleared and only set again by a double push
  let q : Position := { p with squares := b, en_passant_square := 0 }
  let q := applyMoveSpecial old_eps m piece_color piece_kind q
  let q := applyMoveRevoke m q
  { q with side_to_move := q.side_to_move.not }

/-! Attack and check detection. -/

def positiveRayAttack (direction : Nat) (square : Nat) (blockers : Nat) : Nat :=
  let attacks := rays direction square
  let blocked := attacks &&& blockers
  let block_square := tz64 blocked
  attacks ^^^ rays direction block_square

def negativeRayAttack (direction : Nat) (square : Nat) (blockers : Nat) : Nat :=
  let attacks := rays direction square
  let blocked := attacks &&& blockers
  if 0 < blocked then attacks ^^^ rays direction (msb64 blocked) else attacks

def bishopAttacks (p : Position) (square : Nat) : Nat :=
  positiveRayAttack NORTH_WEST square p.squares.occupied
    ||| positiveRayAttack NORTH_EAST square p.squares.occupied
    ||| negativeRayAttack SOUTH_WEST square p.squares.occupied
    ||| negativeRayAttack SOUTH_EAST square p.squares.occupied

def rookAttacks (p : Position) (square : Nat) : Nat :=
  positiveRayAttack NORTH square p.squares.occupied
    ||| positiveRayAttack EAST square p.squares.occupied
    ||| negativeRayAttack SOUTH square p.squares.occupied
    ||| negativeRayAttack WEST square p.squares.occupied

def Position.squareIsAttacked (p : Position) (defender : Color) (square : Nat) : Bool :=
  let attacker := defender.not
  if 0 < pawnAttacks defender.asNum square &&& p.squares.pieces attacker.asNum PAWN then true
  else if 0 < knightAttacks square &&& p.squares.pieces attacker.asNum KNIGHT then true
  else if 0 < kingAttacks square &&& p.squares.pieces attacker.asNum KING then true
  else
    let bishops_and_queens := p.squares.pieces attacker.asNum BISHOP ||| p.squares.pieces attacker.asNum QUEEN
    let rooks_and_queens := p.squares.pieces attacker.asNum ROOK ||| p.squares.pieces attacker.asNum QUEEN
    if 0 < bishopAttacks p square &&& bishops_and_queens then true
    else if 0 < rookAttacks p square &&& rooks_and_queens then true
    else false

def Position.inCheck (p : Position) (color : Color) : Bool :=
  let kingdex := tz64 (p.squares.pieces color.asNum KING)
  p.squareIsAttacked color kingdex

/-! Move generation. -/

def addMoves (p : Position) (color : Fin 2) (origin : Nat) (moves : Nat) : List Move :=
  let moves := moves &&& not64 (p.squares.pieces (oppIdx color) KING)
  (bitIdxs moves).map (fun t => { origin := origin, destination := t, promotion := none })

def kingMovegen (p : Position) (color : Fin 2) : List Move :=
  let king_position := p.squares.pieces color KING
  if king_position = 0 then []
  else
    let king_index := tz64 king_position
    let moves := kingAttacks king_index &&& not64 (p.squares.all_pieces color)
    addMoves p color king_index moves

def knightMovegen (p : Position) (color : Fin 2) : List Move :=
  (bitIdxs (p.squares.pieces color KNIGHT)).flatMap (fun origin =>
    addMoves p color origin (knightAttacks origin &&& not64 (p.squares.all_pieces color)))

def bishopMovegen (p : Position) (color : Fin 2) : List Move :=
  (bitIdxs (p.squares.pieces color BISHOP)).flatMap (fun origin =>
    addMoves p color origin (bishopAttacks p origin &&& not64 (p.squares.all_pieces color)))

def rookMovegen (p : Position) (color : Fin 2) : List Move :=
  (bitIdxs (p.squares.pieces color ROOK)).flatMap (fun origin =>
    addMoves p color origin (rookAttacks p origin &&& not64 (p.squares.all_pieces color)))

/-- NOTE: the source computes `bishop_attacks & rook_attacks` (intersection) here. -/
def queenMovegen (p : Position) (color : Fin 2) : List Move :=
  (bitIdxs (p.squares.pieces color QUEEN)).flatMap (fun origin =>
    addMoves p color origin
      ((bishopAttacks p origin &&& rookAttacks p origin) &&& not64 (p.squares.all_pieces color)))

/-- The four promotion pushes emitted per promotion destination, in source order
(Queen, Bishop, Knight, Rook). -/
def promoMoves (origin t : Nat) : List Move :=
  [{ origin := origin, destination := t, promotion := some PromotionTarget.Queen },
   { origin := origin, destination := t, promotion := some PromotionTarget.Bishop },
   { origin := origin, destination := t, promotion := some PromotionTarget.Knight },
   { origin := origin, destination := t, promotion := some PromotionTarget.Rook }]

def whitePawnMovegen (p : Position) : List Move :=
  -- normal movement
  let moved_pawns := shl64 (p.squares.pieces WHITE PAWN) 8 &&& p.squares.unoccupied
  let promotions := moved_pawns &&& RANK_8
  let moved_pawns := moved_pawns &&& not64 RANK_8
  let normal :=
    (bitIdxs moved_pawns).map (fun t => Move.mk (t - 8) t none)
      ++ (bitIdxs promotions).flatMap (fun t => promoMoves (t - 8) t)
  -- 2 square movement
  let single_pushes := shl64 (p.squares.pieces WHITE PAWN) 8 &&& p.squares.unoccupied
  let double_pushes := shl64 single_pushes 8 &&& p.squares.unoccupied &&& RANK_4
  let doubles := (bitIdxs double_pushes).map (fun t => Move.mk (t - 16) t none)
  -- left attack
  let left_regular_attacks :=
    shl64 (p.squares.pieces WHITE PAWN) 7 &&& p.squares.attackable BLACK &&& not64 FILE_H
  -- NOTE: the source masks the promotion set with `RANK_8` and then immediately
  -- with `!RANK_8`, leaving it empty; `left_regular_attacks` keeps its rank-8 bits.
  let left_attack_promotions := (left_regular_attacks &&& RANK_8) &&& not64 RANK_8
  let left_en_passant :=
    shl64 (p.squares.pieces WHITE PAWN) 7 &&& p.en_passant_square &&& not64 FILE_H
  let lefts :=
    (bitIdxs left_regular_attacks).map (fun t => Move.mk (t - 7) t none)
      ++ (bitIdxs left_attack_promotions).flatMap (fun t => promoMoves (t - 7) t)
      ++ (if 0 < left_en_passant then [Move.mk (tz64 left_en_passant - 7) (tz64 left_en_passant) none] else [])
  -- right attack
  let right_regular_attacks :=
    shl64 (p.squares.pieces WHITE PAWN) 9 &&& p.squares.attackable BLACK &&& not64 FILE_A
  let right_attack_promotions := (right_regular_attacks &&& RANK_8) &&& not64 RANK_8
  let right_en_passant :=
    shl64 (p.squares.pieces WHITE PAWN) 9 &&& p.en_passant_square &&& not64 FILE_A
  let rights :=
    (bitIdxs right_regular_attacks).map (fun t => Move.mk (t - 9) t none)
      ++ (bitIdxs right_attack_promotions).flatMap (fun t => promoMoves (t - 9) t)
      ++ (if 0 < right_en_passant then [Move.mk (tz64 right_en_passant - 9) (tz64 right_en_passant) none] else [])
  normal ++ doubles ++ lefts ++ rights

def blackPawnMovegen (p : Position) : List Move :=
  -- normal movement
  let moved_pawns := (p.squares.pieces BLACK PAWN >>> 8) &&& p.squares.unoccupied
  let promotions := moved_pawns &&& RANK_1
  let moved_pawns := moved_pawns &&& not64 RANK_1
  let normal :=
    (bitIdxs moved_pawns).map (fun t => Move.mk (t + 8) t none)
      ++ (bitIdxs promotions).flatMap (fun t => promoMoves (t + 8) t)
  -- 2 square movement
  let single_pushes := (p.squares.pieces BLACK PAWN >>> 8) &&& p.squares.unoccupied
  let double_pushes := (single_pushes >>> 8) &&& p.squares.unoccupied &&& RANK_5
  let doubles := (bitIdxs double_pushes).map (fun t => Move.mk (t + 16) t none)
  -- left attack
  let left_regular_attacks :=
    (p.squares.pieces BLACK PAWN >>> 9) &&& p.squares.attackable WHITE &&& not64 FILE_H
  let left_attack_promotions := (left_regular_attacks &&& RANK_1) &&& not64 RANK_1
  let left_en_passant :=
    (p.squares.pieces BLACK PAWN >>> 9) &&& p.en_passant_square &&& not64 FILE_H
  let lefts :=
    (bitIdxs left_regular_attacks).map (fun t => Move.mk (t + 9) t none)
      ++ (bitIdxs left_attack_promotions).flatMap (fun t => promoMoves (t + 9) t)
      ++ (if 0 < left_en_passant then [Move.mk (tz64 left_en_passant + 9) (tz64 left_en_passant) none] else [])
  -- right attack; NOTE: the source uses `RANK_8` (not `RANK_1`) in the promotion mask here
  let right_regular_attacks :=
    (p.squares.pieces BLACK PAWN >>> 7) &&& p.squares.attackable WHITE &&& not64 FILE_A
  let right_attack_promotions := (right_regular_attacks &&& RANK_8) &&& not64 RANK_8
  let right_en_passant :=
    (p.squares.pieces BLACK PAWN >>> 7) &&& p.en_passant_square &&& not64 FILE_A
  let rights :=
    (bitIdxs right_regular_attacks).map (fun t => Move.mk (t + 7) t none)
      ++ (bitIdxs right_attack_promotions).flatMap (fun t => promoMoves (t + 7) t)
      ++ (if 0 < right_en_passant then [Move.mk (tz64 right_en_passant + 7) (tz64 right_en_passant) none] else [])
  normal ++ doubles ++ lefts ++ rights

def whiteKingMovegen (p : Position) : List Move :=
  kingMovegen p WHITE
    ++ (if p.white_kingside_castle then
          let path_bb : Nat := shl64 1 5 ||| shl64 1 6
          let squares_occupied : Bool := 0 < path_bb &&& p.squares.occupied
          let squares_attacked :=
            p.squareIsAttacked Color.White 5 || p.squareIsAttacked Color.White 6
          if !squares_occupied && !squares_attacked && !p.inCheck Color.White then
            [Move.mk 4 6 none]
          else []
        else [])
    ++ (if p.white_queenside_castle then
          let path_bb : Nat := shl64 1 3 ||| shl64 1 2 ||| shl64 1 1
          let squares_occupied : Bool := 0 < path_bb &&& p.squares.occupied
          let squares_attacked :=
            p.squareIsAttacked Color.White 3 || p.squareIsAttacked Color.White 2
          if !squares_occupied && !squares_attacked && !p.inCheck Color.White then
            [Move.mk 4 2 none]
          else []
        else [])

def blackKingMovegen (p : Position) : List Move :=
  kingMovegen p BLACK
    ++ (if p.black_kingside_castle then
          let path_bb : Nat := shl64 1 61 ||| shl64 1 62
          let squares_occupied : Bool := 0 < path_bb &&& p.squares.occupied
          let squares_attacked :=
            p.squareIsAttacked Color.Black 61 || p.squareIsAttacked Color.Black 62
          if !squares_occupied && !squares_attacked && !p.inCheck Color.Black then
            [Move.mk 60 62 none]
          else []
        else [])
    ++ (if p.black_queenside_castle then
          let path_bb : Nat := shl64 1 57 ||| shl64 1 58 ||| shl64 1 59
          let squares_occupied : Bool := 0 < path_bb &&& p.squares.occupied
          let squares_attacked :=
            p.squareIsAttacked Color.Black 58 || p.squareIsAttacked Color.Black 59
          if !squares_occupied && !squares_attacked && !p.inCheck Color.Black then
            [Move.mk 60 58 none]
          else []
        else [])

/-- `gen_moves_color`; `drain_filter` removes the moves that leave the mover in check,
so the returned list keeps exactly those that do not. -/
def Position.genMovesColor (p : Position) (color : Color) (do_check_checking : Bool) : List Move :=
  let results :=
    match color with
    | Color.White =>
        whitePawnMovegen p ++ whiteKingMovegen p ++ knightMovegen p WHITE
          ++ bishopMovegen p WHITE ++ rookMovegen p WHITE ++ queenMovegen p WHITE
    | Color.Black =>
        blackPawnMovegen p ++ blackKingMovegen p ++ knightMovegen p BLACK
          ++ bishopMovegen p BLACK ++ rookMovegen p BLACK ++ queenMovegen p BLACK
  if do_check_checking then
    results.filter (fun x => !((p.applyMove x).inCheck color))
  else results

/-! State. -/

structure State where
  position : Position
  prior_positions : List Position
  halfmove_clock : Nat
deriving DecidableEq

def State.applyMove (s : State) (m : Move) : State :=
  let is_capture := 0 < s.position.squares.occupied &&& shl64 1 m.destination
  let is_pawn_move :=
    0 < (s.position.squares.pieces WHITE PAWN ||| s.position.squares.pieces BLACK PAWN)
          &&& shl64 1 m.origin
  let (new_halfmove_clock, new_prior_positions) :=
    if is_capture ∨ is_pawn_move then (0, [])
    else (s.halfmove_clock + 1, s.prior_positions ++ [s.position])
  { halfmove_clock := new_halfmove_clock,
    position := s.position.applyMove m,
    prior_positions := new_prior_positions }

def State.genMoves (s : State) (do_check_checking : Bool) : List Move :=
  s.position.genMovesColor s.position.side_to_move do_check_checking

inductive GameStatus where
  | Draw : GameStatus
  | Victory : Color → GameStatus
  | Ongoing : GameStatus
deriving DecidableEq

def State.status (s : State) (moves : List Move) : GameStatus :=
  if 2 ≤ (s.prior_positions.filter (fun x => x = s.position)).length then GameStatus.Draw
  else if moves.isEmpty && !(s.position.inCheck s.position.side_to_move) then GameStatus.Draw
  else if !moves.isEmpty && decide (100 ≤ s.halfmove_clock) then GameStatus.Draw
  else if moves.isEmpty then GameStatus.Victory s.position.side_to_move.not
  else GameStatus.Ongoing

end Chessatk

namespace Chessatk

/-! FEN ingestion (`State::from_fen`). Strings are handled as `List Char`;
`splitWs` models Rust's `split_whitespace`. -/

/-- Accumulator-based splitting on whitespace runs: `tok` collects the current token
in reverse; a finished token is emitted when whitespace or the end is reached. -/
def splitWsAux : List Char → List Char → List (List Char)
  | [], tok => if tok.isEmpty then [] else [tok.reverse]
  | c :: rest, tok =>
    if c.isWhitespace then
      if tok.isEmpty then splitWsAux rest [] else tok.reverse :: splitWsAux rest []
    else splitWsAux rest (c :: tok)

def splitWs (s : List Char) : List (List Char) := splitWsAux s []

def algebraicToIndex (algebraic : List Char) : Except String Nat :=
  match algebraic with
  | [c, r] => do
    let col : Nat ← match c with
      | 'a' => .ok 0 | 'b' => .ok 1 | 'c' => .ok 2 | 'd' => .ok 3
      | 'e' => .ok 4 | 'f' => .ok 5 | 'g' => .ok 6 | 'h' => .ok 7
      | _ => .error ("not a valid algebraic file, expected a..=h")
    let row : Nat ← match r with
      | '1' => .ok 0 | '2' => .ok 1 | '3' => .ok 2 | '4' => .ok 3
      | '5' => .ok 4 | '6' => .ok 5 | '7' => .ok 6 | '8' => .ok 7
      | _ => .error ("not a valid algebraic rank, expected 1..=8")
    .ok (row * 8 + col)
  | _ => .error ("not a valid algebraic location; too long")

/-- `board.pieces[color][piece] |= bit` during FEN placement parsing. -/
def Board.orPiece (b : Board) (color : Fin 2) (piece : Fin 6) (bit : Nat) : Board :=
  let row := (b.piecesArr.get color).set piece (b.pieces color piece ||| bit)
  { b with piecesArr := b.piecesArr.set color row }

/-- The placement loop of `from_fen`; `index` starts at 56 (rank 8) and `/` steps it
down by 16 after a completed rank. -/
def parsePlacementLoop : List Char → Board → Nat → Except String Board
  | [], b, _ => .ok b
  | c :: rest, b, index =>
    if 64 < index then .error ("malformed FEN; too many squares on board")
    else match c with
    | 'p' => parsePlacementLoop rest (b.orPiece BLACK PAWN (shl64 1 index)) (index + 1)
    | 'P' => parsePlacementLoop rest (b.orPiece WHITE PAWN (shl64 1 index)) (index + 1)
    | 'n' => parsePlacementLoop rest (b.orPiece BLACK KNIGHT (shl64 1 index)) (index + 1)
    | 'N' => parsePlacementLoop rest (b.orPiece WHITE KNIGHT (shl64 1 index)) (index + 1)
    | 'b' => parsePlacementLoop rest (b.orPiece BLACK BISHOP (shl64 1 index)) (index + 1)
    | 'B' => parsePlacementLoop rest (b.orPiece WHITE BISHOP (shl64 1 index)) (index + 1)
    | 'r' => parsePlacementLoop rest (b.orPiece BLACK ROOK (shl64 1 index)) (index + 1)
    | 'R' => parsePlacementLoop rest (b.orPiece WHITE ROOK (shl64 1 index)) (index + 1)
    | 'q' => parsePlacementLoop rest (b.orPiece BLACK QUEEN (shl64 1 index)) (index + 1)
    | 'Q' => parsePlacementLoop rest (b.orPiece WHITE QUEEN (shl64 1 index)) (index + 1)
    | 'k' => parsePlacementLoop rest (b.orPiece BLACK KING (shl64 1 index)) (index + 1)
    | 'K' => parsePlacementLoop rest (b.orPiece WHITE KING (shl64 1 index)) (index + 1)
    | '1' => parsePlacementLoop rest b (index + 1)
    | '2' => parsePlacementLoop rest b (index + 2)
    | '3' => parsePlacementLoop rest b (index + 3)
    | '4' => parsePlacementLoop rest b (index + 4)
    | '5' => parsePlacementLoop rest b (index + 5)
    | '6' => parsePlacementLoop rest b (index + 6)
    | '7' => parsePlacementLoop rest b (index + 7)
    | '8' => parsePlacementLoop rest b (index + 8)
    | '/' =>
      if index % 8 ≠ 0 then
        .error ("malformed FEN; got to end of rank without all squares in rank accounted for")
      else parsePlacementLoop rest b (index - 16)
    | _ => .error ("malformed FEN; got unexpected byte during piece placement")

/-- The castling-rights loop of `from_fen`. -/
def parseCastlingLoop : List Char → Bool → Bool → Bool → Bool →
    Except String (Bool × Bool × Bool × Bool)
  | [], wkc, wqc, bkc, bqc => .ok (wkc, wqc, bkc, bqc)
  | c :: rest, wkc, wqc, bkc, bqc =>
    match c with
    | 'K' => if wkc then .error ("malformed FEN; encountered White Kingside castling rights twice")
             else parseCastlingLoop rest true wqc bkc bqc
    | 'Q' => if wqc then .error ("malformed FEN; encountered White Queenside castling rights twice")
             else parseCastlingLoop rest wkc true bkc bqc
    | 'k' => if bkc then .error ("malformed FEN; encountered Black Kingside castling rights twice")
             else parseCastlingLoop rest wkc wqc true bqc
    | 'q' => if bqc then .error ("malformed FEN; encountered Black Queenside castling rights twice")
             else parseCastlingLoop rest wkc wqc bkc true
    | _ => .error ("malformed FEN; expected one of ASCII KQkq")

/-- `u64` decimal parsing (`str::parse`), digits only. -/
def parseU64Loop : List Char → Nat → Except String Nat
  | [], acc => .ok acc
  | c :: rest, acc =>
    if c.isDigit then parseU64Loop rest (acc * 10 + (c.toNat - '0'.toNat))
    else .error ("couldn't be parsed as a number")

def parseU64 (l : List Char) : Except String Nat :=
  if l.isEmpty then .error ("couldn't be parsed as a number") else parseU64Loop l 0

def State.fromFen (fen : List Char) : Except String State := do
  let fen_sections := splitWs fen
  match fen_sections with
  | [s0, s1, s2, s3, s4, _s5] =>
    if 71 < s0.length ∨ s0.length < 15 then
      .error ("malformed FEN; bad length of piece placement section")
    else do
    let board ← parsePlacementLoop s0 Board.empty 56
    if s1.length ≠ 1 then .error ("malformed FEN; bad length for player to move subsection")
    else do
    let side_to_move : Color ← match s1 with
      | ['w'] => .ok Color.White
      | ['b'] => .ok Color.Black
      | _ => .error ("malformed FEN; expecting one of ASCII wb")
    if 4 < s2.length then .error ("malformed FEN; castling rights section too long")
    else do
    let (wkc, wqc, bkc, bqc) ←
      if s2.head? ≠ some '-' then parseCastlingLoop s2 false false false false
      else .ok (false, false, false, false)
    if 2 < s3.length then .error ("malformed FEN; en passant square section too long")
    else do
    let en_passant_square : Nat ←
      match s3 with
      | ['-'] => .ok 0
      | algebraic =>
        match algebraicToIndex algebraic with
        | .ok index => .ok (shl64 1 index)
        | .error _ => .error ("malformed FEN; en passant square was not valid algebraic notation")
    let halfmove_clock ← parseU64 s4
    .ok { position :=
            { squares := board.updateDerivedBitboards,
              white_kingside_castle := wkc,
              white_queenside_castle := wqc,
              black_kingside_castle := bkc,
              black_queenside_castle := bqc,
              en_passant_square := en_passant_square,
              side_to_move := side_to_move },
          prior_positions := [],
          halfmove_clock := halfmove_clock }
  | _ => .error ("malformed FEN; expected 6 whitespace delimited sections")

def START_FEN : List Char := "rnbqkbnr/pppppppp/8/8/8/8/PPPPPPPP/RNBQKBNR w KQkq - 0 1".data

/-- A default (empty) position, used as the fallback of `fenPosition` below. -/
def emptyPosition : Position :=
  { squares := Board.empty, white_kingside_castle := false, white_queenside_castle := false,
    black_kingside_castle := false, black_queenside_castle := false,
    en_passant_square := 0, side_to_move := Color.White }

/-- Convenience extractor: the parsed State of a FEN (meaningful only on FENs that
parse, which is the case for every FEN used in this development). -/
def fenState (fen : List Char) : State :=
  match State.fromFen fen with
  | Except.ok s => s
  | Except.error _ => { position := emptyPosition, prior_positions := [], halfmove_clock := 0 }

def fenPosition (fen : List Char) : Position := (fenState fen).position

/-- `State::from_start()`. -/
def State.fromStart : State := fenState START_FEN

end Chessatk

namespace Chessatk

/-! Engine protocol messages (`messages.rs`). `f64` evaluations are modelled as
rationals; `GoTime`'s wall-clock budget is abstracted away because every handler
below takes the time-dependent data as an explicit argument. -/

inductive EngineMessage where
  | BestMove : Option Move → EngineMessage
  | CurrentEval : ℚ → EngineMessage
  deriving DecidableEq

inductive InterfaceMessage where
  | GoDepth : Nat → InterfaceMessage
  | GoTime : InterfaceMessage
  | QueryEval : InterfaceMessage
  | SetState : State → InterfaceMessage
  | ApplyMove : Move → InterfaceMessage

/-! The negamax searcher's root collection and the dispatcher loop (`engine.rs`). -/

/-- The root score-collection loop of `search`: `max` starts at `NEG_INFINITY`
(modelled as the bottom element) and `best_move` at `None`; for each collected
`(move, score)` pair, in order, `if score >= max` both are overwritten. The root
scores themselves come from `-nega_max(...)` over `f64`; they are abstracted here
as the rational entries of the input list. -/
def searchCollect (scores : List (Move × ℚ)) : WithBot ℚ × Option Move :=
  scores.foldl
    (fun acc pair =>
      if acc.1 ≤ (pair.2 : WithBot ℚ) then ((pair.2 : WithBot ℚ), some pair.1) else acc)
    (⊥, none)

structure EngineLoopState where
  state : State
  last_eval : ℚ
  deriving DecidableEq

/-- `GoDepth` handling in the negamax `engine::start` loop: `searchResult` is the
`(eval, best_move)` pair returned by `search` for the current state; `last_eval` is
assigned (to the negated eval) only inside `if state.position.side_to_move ==
Color::Black`, and the engine replies `BestMove`. -/
def handleGoDepth (searchResult : ℚ × Option Move) (e : EngineLoopState) :
    EngineLoopState × EngineMessage :=
  let last_eval :=
    if e.state.position.side_to_move = Color.Black then -searchResult.1 else e.last_eval
  ({ e with last_eval := last_eval }, EngineMessage.BestMove searchResult.2)

/-- `GoTime` handling: iterative deepening completes some number of depths (decided by
the wall clock; abstracted by the list `depthResults` of per-depth `search` results in
order); `(overall_eval, overall_best_move)` starts at `(0.0, None)` and is overwritten
by each completed depth; then `last_eval` is assigned only when the side to move is
Black, and the engine replies `BestMove`. -/
def handleGoTime (depthResults : List (ℚ × Option Move)) (e : EngineLoopState) :
    EngineLoopState × EngineMessage :=
  let overall := depthResults.foldl (fun _ r => r) ((0 : ℚ), (none : Option Move))
  let last_eval :=
    if e.state.position.side_to_move = Color.Black then -overall.1 else e.last_eval
  ({ e with last_eval := last_eval }, EngineMessage.BestMove overall.2)

/-- `QueryEval` handling: reply `CurrentEval(last_eval)`. -/
def handleQueryEval (e : EngineLoopState) : EngineMessage :=
  EngineMessage.CurrentEval e.last_eval

/-! The MCTS searcher (`mcts.rs`). The tree is an append-only array of nodes with
parent back-pointers. The `f64` node score matters to the algorithm's control flow
only through `is_infinite` and comparisons with the two infinities, so it is modelled
as a rational extended with both infinities. -/

inductive MScore where
  | ninf : MScore
  | fin : ℚ → MScore
  | inf : MScore
  deriving DecidableEq

/-- `f64::is_infinite`. -/
def MScore.isInfinite : MScore → Bool
  | MScore.ninf => true
  | MScore.inf => true
  | MScore.fin _ => false

/-- `score += q`; the infinities absorb, as in `f64`. -/
def MScore.add : MScore → ℚ → MScore
  | MScore.fin x, q => MScore.fin (x + q)
  | s, _ => s

structure NodeStats where
  unobserved_simulations : Nat
  simulations : Nat
  score : MScore
  deriving DecidableEq

structure Node where
  last_move : Move
  last_player : Color
  parent : Nat
  children : List Nat
  stats : NodeStats
  deriving DecidableEq

structure MctsState where
  tree : List Node
  root : Nat
  deriving DecidableEq

def defaultNode : Node :=
  { last_move := { origin := 0, destination := 0, promotion := none },
    last_player := Color.White, parent := 0, children := [],
    stats := { unobserved_simulations := 0, simulations := 0, score := MScore.fin 0 } }

/-- `tree[i]` (total; the source indexing panics out of bounds, which never happens in
the walks modelled here). -/
def nodeAt (tree : List Node) (i : Nat) : Node := (tree[i]?).getD defaultNode

def modifyNode (tree : List Node) (i : Nat) (f : Node → Node) : List Node :=
  match tree[i]? with
  | some n => tree.set i (f n)
  | none => tree

/-- `tree[cur_node].stats.unobserved_simulations += 1` (the virtual-loss increment at
the top of the selection loop). -/
def incUnobserved (tree : List Node) (cur : Nat) : List Node :=
  modifyNode tree cur (fun n => { n with stats := { n.stats with
    unobserved_simulations := n.stats.unobserved_simulations + 1 } })

/-- `tree[cur_node].children.shuffle(&mut rng)`: the RNG is abstracted by the oracle
permutation `shuffleO k` applied to the children list at step `k`. -/
def shuffleChildren (shuffleO : Nat → List Nat → List Nat) (k : Nat)
    (tree : List Node) (cur : Nat) : List Node :=
  modifyNode tree cur (fun n => { n with children := shuffleO k n.children })

/-- Node expansion: append the new node id to `tree[cur_node].children` and push the
new node (with one unobserved simulation) onto the arena. -/
def expandChild (tree : List Node) (cur : Nat) (a_move : Move) (pl : Color) : List Node :=
  let new_node_id := tree.length
  (modifyNode tree cur (fun n => { n with children := n.children ++ [new_node_id] }))
    ++ [{ last_move := a_move, last_player := pl, parent := cur, children := [],
          stats := { score := MScore.fin 0, unobserved_simulations := 1,
                     simulations := 0 } }]

/-- One complete selection/expansion walk of `mcts_inner` (the `'outer: loop`),
executed sequentially with the tree lock held. The two uses of the thread-local RNG
and of floating-point UCB1 scores are supplied as oracles: `shuffleO k` is the
permutation produced by `children.shuffle(&mut rng)` at step `k`, and `pickO k`
returns the child index chosen by `max_by_key` over the `ucb1` values at step `k`.
`fuel` bounds the walk (the source loop terminates because every descent moves to a
strictly larger node index). Besides the data the source keeps (`tree`, `cur_node`,
`g`, `g_status`, `did_simulate`), the result carries the list of visited node indices
from the reached leaf up to the starting node — information the source keeps
implicitly in the parent pointers. -/
def selectLoop (shuffleO : Nat → List Nat → List Nat) (pickO : Nat → List Nat → Nat)
    (fuel : Nat) (k : Nat) (tree : List Node) (cur : Nat) (g : State) :
    Option (List Node × Nat × State × GameStatus × Bool × List Nat) :=
  match fuel with
  | 0 => none
  | fuel + 1 =>
    let tree := incUnobserved tree cur
    let moves := g.genMoves true
    let g_status := g.status moves
    if g_status ≠ GameStatus.Ongoing ∨ (nodeAt tree cur).stats.score.isInfinite then
      some (tree, cur, g, g_status, false, [cur])
    else
      let tree := shuffleChildren shuffleO k tree cur
      match moves.find? (fun m =>
          !((nodeAt tree cur).children.any (fun x => (nodeAt tree x).last_move == m))) with
      | some a_move =>
        let new_node_id := tree.length
        let tree := expandChild tree cur a_move g.position.side_to_move
        let g := g.applyMove a_move
        let moves2 := g.genMoves true
        let g_status := g.status moves2
        some (tree, new_node_id, g, g_status, true, [new_node_id, cur])
      | none =>
        let c := pickO k (nodeAt tree cur).children
        let g := g.applyMove (nodeAt tree c).last_move
        match selectLoop shuffleO pickO fuel (k + 1) tree c g with
        | some (tree', leaf, g', st, ds, path) => some (tree', leaf, g', st, ds, path ++ [cur])
        | none => none

/-- The pre-backprop terminal assignment: when the iteration did not simulate and the
terminal is a `Victory`, the leaf's score becomes `+inf` iff its `last_player` won. -/
def assignTerminalScore (tree : List Node) (leaf : Nat) (g_status : GameStatus) : List Node :=
  match g_status with
  | GameStatus.Victory p =>
    modifyNode tree leaf (fun n =>
      { n with stats := { n.stats with
          score := if n.last_player = p then MScore.inf else MScore.ninf } })
  | _ => tree

/-- The per-node update of the back-propagation loop body of `mcts_inner`: score update
(terminal-backed propagation when the iteration did not simulate, otherwise the
statistical 0.5 / 1.0 update; `GameStatus::Ongoing` reaches `unreachable_unchecked()`
in the source and is modelled as leaving the score unchanged), `simulations += 1`,
`unobserved_simulations -= 1`. -/
def bpUpdate (tree : List Node) (cur : Nat) (g_status : GameStatus)
    (did_simulate : Bool) : List Node :=
  let n := nodeAt tree cur
  let newScore :=
    if !did_simulate && n.children.any (fun x => (nodeAt tree x).stats.score == MScore.inf) then
      MScore.ninf
    else if !did_simulate && !n.children.isEmpty
        && n.children.all (fun x => (nodeAt tree x).stats.score == MScore.ninf) then
      MScore.inf
    else
      match g_status with
      | GameStatus.Draw => n.stats.score.add (1/2)
      | GameStatus.Victory p => if n.last_player = p then n.stats.score.add 1 else n.stats.score
      | GameStatus.Ongoing => n.stats.score
  modifyNode tree cur (fun m => { m with stats :=
    { score := newScore, simulations := m.stats.simulations + 1,
      unobserved_simulations := m.stats.unobserved_simulations - 1 } })

/-- The back-propagation loop of `mcts_inner`: starting at the leaf, each node on the
parent chain is updated by `bpUpdate`; the walk stops after updating the root. -/
def backpropLoop (fuel : Nat) (tree : List Node) (root : Nat) (g_status : GameStatus)
    (did_simulate : Bool) (cur : Nat) : Option (List Node) :=
  match fuel with
  | 0 => none
  | fuel + 1 =>
    let tree := bpUpdate tree cur g_status did_simulate
    if cur = root then some tree
    else backpropLoop fuel tree root g_status did_simulate (nodeAt tree cur).parent

/-- One complete iteration of `mcts_inner` (selection/expansion, simulation,
back-propagation), executed sequentially. The random playout touches no tree node; it
runs only while the game status is `Ongoing` and its terminal status is abstracted by
the oracle `simStatus`. -/
def mctsIteration (shuffleO : Nat → List Nat → List Nat) (pickO : Nat → List Nat → Nat)
    (simStatus : GameStatus) (ms : MctsState) (state : State) : Option MctsState :=
  match selectLoop shuffleO pickO (ms.tree.length + 1) 0 ms.tree ms.root state with
  | none => none
  | some (tree, leaf, _g, g_status, did_simulate, _path) =>
    let g_status := if did_simulate ∧ g_status = GameStatus.Ongoing then simStatus else g_status
    let tree := if !did_simulate then assignTerminalScore tree leaf g_status else tree
    match backpropLoop (tree.length + 1) tree ms.root g_status did_simulate leaf with
    | some tree' => some { tree := tree', root := ms.root }
    | none => none

/-! The MCTS engine dispatcher loop (`mcts::start`). -/

def MctsState.reset : MctsState := { tree := [], root := 0 }

/-- `move_root_down`: reassign the root to the child matching the applied move, else
clear the tree. -/
def MctsState.moveRootDown (ms : MctsState) (m : Move) : MctsState :=
  match (ms.tree[ms.root]?).bind (fun x =>
      x.children.find? (fun y => (nodeAt ms.tree y).last_move == m)) with
  | some n => { ms with root := n }
  | none => { tree := [], root := 0 }

structure MctsLoopState where
  state : State
  last_eval : ℚ
  mcts_state : MctsState

/-- One step of the `mcts::start` message loop. `GoDepth` hits `unreachable!()`, which
panics the engine task: modelled as `Except.error` with the panic message. The
`GoTime` search call (worker pool, wall clock) is abstracted by `goTimeOracle`, giving
its returned `(best move, win rate)` and the tree it leaves behind. -/
def mctsEngineStep (goTimeOracle : MctsLoopState → Option (Move × ℚ) × MctsState)
    (msg : InterfaceMessage) (c : MctsLoopState) :
    Except String (MctsLoopState × Option EngineMessage) :=
  match msg with
  | InterfaceMessage.GoDepth _ => Except.error ("internal error: entered unreachable code")
  | InterfaceMessage.GoTime =>
    let result := (goTimeOracle c).1
    let ms := (goTimeOracle c).2
    let last_eval :=
      match result with
      | some res => if c.state.position.side_to_move = Color.Black then 1 - res.2 else c.last_eval
      | none => c.last_eval
    Except.ok ({ c with last_eval := last_eval, mcts_state := ms },
               some (EngineMessage.BestMove (result.map Prod.fst)))
  | InterfaceMessage.QueryEval =>
    Except.ok (c, some (EngineMessage.CurrentEval c.last_eval))
  | InterfaceMessage.SetState s =>
    Except.ok ({ state := s, last_eval := c.last_eval, mcts_state := MctsState.reset }, none)
  | InterfaceMessage.ApplyMove m =>
    Except.ok ({ state := c.state.applyMove m, last_eval := c.last_eval,
                 mcts_state := c.mcts_state.moveRootDown m }, none)

/-- Well-formedness of the MCTS arena: every child index points past its parent, is in
bounds, and its parent pointer points back. -/
def treeWF (tree : List Node) : Prop :=
  ∀ i, i < tree.length → ∀ c ∈ (nodeAt tree i).children,
    i < c ∧ c < tree.length ∧ (nodeAt tree c).parent = i

/-- The parent chain walked by back-propagation: a nonempty list of node indices from a
leaf down to `root`, each linked by a parent pointer to the next, strictly decreasing. -/
def pathOK (tree : List Node) (root : Nat) : List Nat → Prop
  | [] => False
  | [x] => x = root ∧ x < tree.length
  | x :: y :: rest =>
      x < tree.length ∧ (nodeAt tree x).parent = y ∧ y < x ∧ pathOK tree root (y :: rest)

/-! Concrete inputs used by the claim-level theorems: parsed FEN positions, the
repetition move sequence, and small engine-loop states. -/

def c1Fen : List Char := "4k3/8/8/8/3Q4/8/8/4K3 w - - 0 1".data
def c1Pos : Position := fenPosition c1Fen

def c2Fen : List Char := "r3k3/1P6/8/8/8/8/8/4K3 w - - 0 1".data
def c2Pos : Position := fenPosition c2Fen
def c2bFen : List Char := "4k3/8/8/8/8/8/6p1/4K2R b - - 0 1".data
def c2bPos : Position := fenPosition c2bFen

def c3Fen : List Char := "rnbqkbnr/1pp1pppp/p7/3pP3/8/8/PPPP1PPP/RNBQKBNR w KQkq d6 0 3".data
def c3Pos : Position := fenPosition c3Fen
def c3Move : Move := Move.mk 36 43 none

def repetitionMoves : List Move :=
  [Move.mk 1 18 none, Move.mk 57 42 none, Move.mk 18 1 none, Move.mk 42 57 none,
   Move.mk 1 18 none, Move.mk 57 42 none, Move.mk 18 1 none, Move.mk 42 57 none]
def repetitionState : State := repetitionMoves.foldl State.applyMove State.fromStart

def c5Fen : List Char := "r3k2r/8/8/8/8/8/8/R3K2R w KQkq - 0 1".data
def c5Pos : Position := fenPosition c5Fen
def c5Move : Move := Move.mk 0 56 none

def c6MoveA : Move := Move.mk 1 18 none
def c6MoveB : Move := Move.mk 6 21 none

def c7Loop : EngineLoopState := { state := State.fromStart, last_eval := 0 }

def c8Loop : MctsLoopState :=
  { state := State.fromStart, last_eval := 0, mcts_state := MctsState.reset }
def c8Oracle : MctsLoopState → Option (Move × ℚ) × MctsState :=
  fun _ => (none, MctsState.reset)

def c9Fen : List Char := "4k3/8/8/8/8/8/8/4K2B w K - 0 1".data
def c9Pos : Position := fenPosition c9Fen
def c9Move : Move := Move.mk 4 6 none

def c10MState : MctsState := { tree := [defaultNode], root := 0 }

/-! The board invariant of §8 (claim C9). -/

/-- The Position/Board representation invariant: the 12 piece bitboards are 64-bit
values, pairwise disjoint; `all_pieces[c]` is the union of that color's boards;
`occupied` is the union of the two `all_pieces`; `unoccupied` its complement; and
`attackable[c]` is `all_pieces[c]` minus that color's king board. -/
def boardInv (b : Board) : Prop :=
  (∀ c p, b.pieces c p < 2^64) ∧
  (∀ c p c' p', (c ≠ c' ∨ p ≠ p') → b.pieces c p &&& b.pieces c' p' = 0) ∧
  (∀ c, b.all_pieces c =
    b.pieces c PAWN ||| b.pieces c ROOK ||| b.pieces c BISHOP ||| b.pieces c QUEEN
      ||| b.pieces c KING ||| b.pieces c KNIGHT) ∧
  (b.occupied = b.all_pieces WHITE ||| b.all_pieces BLACK) ∧
  (b.unoccupied = not64 b.occupied) ∧
  (∀ c, b.attackable c = b.all_pieces c &&& not64 (b.pieces c KING))

instance (b : Board) : Decidable (boardInv b) := by
  unfold boardInv
  infer_instance

end Chessatk

namespace Chessatk

theorem shl64_one_eq (i : Nat) : shl64 1 i = if i < 64 then 2 ^ i else 0 := by
  unfold shl64
  rw [Nat.shiftLeft_eq, Nat.one_mul]
  by_cases h : i < 64
  · rw [if_pos h]
    exact Nat.mod_eq_of_lt (Nat.pow_lt_pow_right (by omega) h)
  · rw [if_neg h]
    exact (Nat.mod_eq_zero_of_dvd (Nat.pow_dvd_pow 2 (by omega)))

end Chessatk

namespace Chessatk

theorem testBit_shl64_one (i j : Nat) :
    (shl64 1 i).testBit j = (decide (i < 64) && decide (i = j)) := by
  rw [shl64_one_eq]
  by_cases h : i < 64
  · simp [h, Nat.testBit_two_pow]
  · simp [h, Nat.zero_testBit]

theorem mask64_testBit (j : Nat) : mask64.testBit j = decide (j < 64) := by
  have : mask64 = 2 ^ 64 - 1 := rfl
  rw [this, Nat.testBit_two_pow_sub_one]

theorem not64_testBit (x j : Nat) (hx : x < 2 ^ 64) :
    (not64 x).testBit j = (decide (j < 64) && !x.testBit j) := by
  unfold not64
  rw [Nat.testBit_xor, mask64_testBit]
  by_cases h : j < 64
  · simp [h]
  · have hxj : x.testBit j = false :=
      Nat.testBit_lt_two_pow (lt_of_lt_of_le hx (Nat.pow_le_pow_right (by omega) (by omega)))
    simp [h, hxj]

theorem and_eq_zero_iff_testBit (x y : Nat) :
    x &&& y = 0 ↔ ∀ j, x.testBit j = false ∨ y.testBit j = false := by
  constructor
  · intro h j
    have := congrArg (fun z => z.testBit j) h
    simp only [Nat.testBit_and, Nat.zero_testBit] at this
    rcases Bool.and_eq_false_iff.mp this with h' | h'
    · exact Or.inl h'
    · exact Or.inr h'
  · intro h
    apply Nat.eq_of_testBit_eq
    intro j
    simp only [Nat.testBit_and, Nat.zero_testBit]
    rcases h j with h' | h' <;> simp [h']

theorem PieceRow.get_set_eq (a : PieceRow) (p q : Fin 6) (v : Nat) :
    (a.set p v).get q = if q = p then v else a.get q := by
  fin_cases p <;> fin_cases q <;> simp [PieceRow.set, PieceRow.get]

theorem PieceTable.get_set_table (a : PieceTable) (c d : Fin 2) (v : PieceRow) :
    (a.set c v).get d = if d = c then v else a.get d := by
  fin_cases c <;> fin_cases d <;> simp [PieceTable.set, PieceTable.get]

theorem ColorPair.get_set_pair (a : ColorPair) (c d : Fin 2) (v : Nat) :
    (a.set c v).get d = if d = c then v else a.get d := by
  fin_cases c <;> fin_cases d <;> simp [ColorPair.set, ColorPair.get]

theorem Board.pieces_removePiece (b : Board) (c0 : Fin 2) (p0 : Fin 6) (i : Nat)
    (c : Fin 2) (p : Fin 6) :
    (b.removePiece c0 p0 i).pieces c p =
      if c = c0 ∧ p = p0 then b.pieces c0 p0 ^^^ shl64 1 i else b.pieces c p := by
  unfold Board.removePiece Board.pieces
  by_cases hc : c = c0 <;> by_cases hp : p = p0 <;>
    simp [hc, hp, PieceTable.get_set_table, PieceRow.get_set_eq]

theorem Board.all_pieces_removePiece (b : Board) (c0 : Fin 2) (p0 : Fin 6) (i : Nat)
    (c : Fin 2) :
    (b.removePiece c0 p0 i).all_pieces c =
      if c = c0 then b.all_pieces c0 ^^^ shl64 1 i else b.all_pieces c := by
  unfold Board.removePiece Board.all_pieces
  by_cases hc : c = c0 <;> simp [hc, ColorPair.get_set_pair]

theorem Board.attackable_removePiece (b : Board) (c0 : Fin 2) (p0 : Fin 6) (i : Nat)
    (c : Fin 2) :
    (b.removePiece c0 p0 i).attackable c =
      if p0 ≠ KING ∧ c = c0 then b.attackable c0 ^^^ shl64 1 i else b.attackable c := by
  unfold Board.removePiece Board.attackable
  by_cases hp : p0 ≠ KING <;> by_cases hc : c = c0 <;>
    simp [hp, hc, ColorPair.get_set_pair]

theorem Board.occupied_removePiece (b : Board) (c0 : Fin 2) (p0 : Fin 6) (i : Nat) :
    (b.removePiece c0 p0 i).occupied = b.occupied ^^^ shl64 1 i := rfl

theorem Board.unoccupied_removePiece (b : Board) (c0 : Fin 2) (p0 : Fin 6) (i : Nat) :
    (b.removePiece c0 p0 i).unoccupied = not64 (b.occupied ^^^ shl64 1 i) := rfl

theorem Board.pieces_addPiece (b : Board) (c0 : Fin 2) (p0 : Fin 6) (i : Nat)
    (c : Fin 2) (p : Fin 6) :
    (b.addPiece c0 p0 i).pieces c p =
      if c = c0 ∧ p = p0 then b.pieces c0 p0 ||| shl64 1 i else b.pieces c p := by
  unfold Board.addPiece Board.pieces
  by_cases hc : c = c0 <;> by_cases hp : p = p0 <;>
    simp [hc, hp, PieceTable.get_set_table, PieceRow.get_set_eq]

theorem Board.all_pieces_addPiece (b : Board) (c0 : Fin 2) (p0 : Fin 6) (i : Nat)
    (c : Fin 2) :
    (b.addPiece c0 p0 i).all_pieces c =
      if c = c0 then b.all_pieces c0 ||| shl64 1 i else b.all_pieces c := by
  unfold Board.addPiece Board.all_pieces
  by_cases hc : c = c0 <;> simp [hc, ColorPair.get_set_pair]

theorem Board.attackable_addPiece (b : Board) (c0 : Fin 2) (p0 : Fin 6) (i : Nat)
    (c : Fin 2) :
    (b.addPiece c0 p0 i).attackable c =
      if p0 ≠ KING ∧ c = c0 then b.attackable c0 ^^^ shl64 1 i else b.attackable c := by
  unfold Board.addPiece Board.attackable
  by_cases hp : p0 ≠ KING <;> by_cases hc : c = c0 <;>
    simp [hp, hc, ColorPair.get_set_pair]

theorem Board.occupied_addPiece (b : Board) (c0 : Fin 2) (p0 : Fin 6) (i : Nat) :
    (b.addPiece c0 p0 i).occupied = b.occupied ||| shl64 1 i := rfl

theorem Board.unoccupied_addPiece (b : Board) (c0 : Fin 2) (p0 : Fin 6) (i : Nat) :
    (b.addPiece c0 p0 i).unoccupied = not64 (b.occupied ||| shl64 1 i) := rfl

end Chessatk

namespace Chessatk

theorem testBit_xor_pow (X i j : Nat) :
    (X ^^^ 2 ^ i).testBit j = (X.testBit j != decide (i = j)) := by
  simp [Nat.testBit_xor, Nat.testBit_two_pow]

theorem boardInv_removePiece (b : Board) (c0 : Fin 2) (p0 : Fin 6) (i : Nat)
    (hinv : boardInv b) (hi : i < 64) (hbit : (b.pieces c0 p0).testBit i = true) :
    boardInv (b.removePiece c0 p0 i) := by
  obtain ⟨hrange, hdisj, hall, hocc, hunocc, hatt⟩ := hinv
  have hs : shl64 1 i = 2 ^ i := by rw [shl64_one_eq, if_pos hi]
  have hslt : (2 : Nat) ^ i < 2 ^ 64 := Nat.pow_lt_pow_right (by omega) hi
  have hother : ∀ c p, (c ≠ c0 ∨ p ≠ p0) → (b.pieces c p).testBit i = false := by
    intro c p h
    rcases (and_eq_zero_iff_testBit _ _).mp (hdisj c p c0 p0 h) i with h' | h'
    · exact h'
    · rw [hbit] at h'
      exact absurd h' (by simp)
  have hall_bit : ∀ c j, (b.all_pieces c).testBit j =
      ((b.pieces c PAWN).testBit j || (b.pieces c ROOK).testBit j
        || (b.pieces c BISHOP).testBit j || (b.pieces c QUEEN).testBit j
        || (b.pieces c KING).testBit j || (b.pieces c KNIGHT).testBit j) := by
    intro c j
    rw [hall c]
    simp [Nat.testBit_or]
  have hall_i : (b.all_pieces c0).testBit i = true := by
    rw [hall_bit]
    fin_cases p0 <;> simp_all [WHITE, BLACK, PAWN, ROOK, KNIGHT, BISHOP, QUEEN, KING]
  have hall_other : ∀ c, c ≠ c0 → (b.all_pieces c).testBit i = false := by
    intro c hc
    rw [hall_bit]
    have h1 := hother c PAWN (Or.inl hc)
    have h2 := hother c ROOK (Or.inl hc)
    have h3 := hother c BISHOP (Or.inl hc)
    have h4 := hother c QUEEN (Or.inl hc)
    have h5 := hother c KING (Or.inl hc)
    have h6 := hother c KNIGHT (Or.inl hc)
    simp [h1, h2, h3, h4, h5, h6]
  refine ⟨?_, ?_, ?_, ?_, ?_, ?_⟩
  · -- range
    intro c p
    rw [Board.pieces_removePiece, hs]
    by_cases h : c = c0 ∧ p = p0
    · rw [if_pos h]
      exact Nat.xor_lt_two_pow (hrange c0 p0) hslt
    · rw [if_neg h]
      exact hrange c p
  · -- pairwise disjoint
    intro c p c' p' h
    rw [Board.pieces_removePiece, Board.pieces_removePiece, hs]
    by_cases h1 : c = c0 ∧ p = p0 <;> by_cases h2 : c' = c0 ∧ p' = p0
    · exfalso
      obtain ⟨e1, e2⟩ := h1
      obtain ⟨e3, e4⟩ := h2
      subst e1; subst e2
      rcases h with h | h
      · exact h e3.symm
      · exact h e4.symm
    · rw [if_pos h1, if_neg h2]
      apply (and_eq_zero_iff_testBit _ _).mpr
      intro j
      by_cases hj : j = i
      · subst hj
        exact Or.inr (hother c' p' (by tauto))
      · rw [testBit_xor_pow]
        have : decide (i = j) = false := by simp [Ne.symm hj]
        rw [this]
        have hd := (and_eq_zero_iff_testBit _ _).mp
          (hdisj c0 p0 c' p' (by tauto)) j
        simpa using hd
    · rw [if_neg h1, if_pos h2]
      apply (and_eq_zero_iff_testBit _ _).mpr
      intro j
      by_cases hj : j = i
      · subst hj
        exact Or.inl (hother c p (by tauto))
      · rw [testBit_xor_pow]
        have : decide (i = j) = false := by simp [Ne.symm hj]
        rw [this]
        have hd := (and_eq_zero_iff_testBit _ _).mp
          (hdisj c p c0 p0 (by tauto)) j
        simpa using hd
    · rw [if_neg h1, if_neg h2]
      exact hdisj c p c' p' h
  · -- all_pieces is the union
    intro c
    rw [Board.all_pieces_removePiece]
    by_cases hc : c = c0
    · subst hc
      rw [if_pos rfl, hs]
      apply Nat.eq_of_testBit_eq
      intro j
      rw [testBit_xor_pow]
      simp only [Board.pieces_removePiece, hs]
      by_cases hj : j = i
      · subst hj
        rw [hall_i]
        have hfalse : ∀ p : Fin 6, p ≠ p0 → (b.pieces c p).testBit j = false :=
          fun p hp => hother c p (Or.inr hp)
        fin_cases p0 <;>
          simp_all [Nat.testBit_or, testBit_xor_pow, WHITE, BLACK, PAWN, ROOK, KNIGHT,
            BISHOP, QUEEN, KING]
      · have : decide (i = j) = false := by simp [Ne.symm hj]
        rw [this, hall_bit]
        fin_cases p0 <;>
          simp_all [Nat.testBit_or, testBit_xor_pow, WHITE, BLACK, PAWN, ROOK, KNIGHT,
            BISHOP, QUEEN, KING]
    · rw [if_neg hc]
      simp only [Board.pieces_removePiece]
      have hne : ∀ p : Fin 6, ¬ (c = c0 ∧ p = p0) := fun p h => hc h.1
      simp only [hne, if_false]
      exact hall c
  · -- occupied is the union of the two all_pieces
    rw [Board.occupied_removePiece, hs]
    rw [Board.all_pieces_removePiece, Board.all_pieces_removePiece]
    have hocc_bit : ∀ j, b.occupied.testBit j =
        ((b.all_pieces WHITE).testBit j || (b.all_pieces BLACK).testBit j) := by
      intro j
      rw [hocc]
      simp [Nat.testBit_or]
    apply Nat.eq_of_testBit_eq
    intro j
    rw [testBit_xor_pow]
    by_cases hj : j = i
    · subst hj
      have h01 : (WHITE : Fin 2) ≠ BLACK := by decide
      fin_cases c0
      · have haw : (b.all_pieces 0).testBit j = true := hall_i
        have hob : (b.all_pieces 1).testBit j = false := hall_other BLACK (by decide)
        simp [Nat.testBit_or, testBit_xor_pow, hocc_bit, haw, hob, hs, Nat.testBit_two_pow, WHITE, BLACK]
      · have hab : (b.all_pieces 1).testBit j = true := hall_i
        have how : (b.all_pieces 0).testBit j = false := hall_other WHITE (by decide)
        simp [Nat.testBit_or, testBit_xor_pow, hocc_bit, hab, how, hs, Nat.testBit_two_pow, WHITE, BLACK]
    · have hij : decide (i = j) = false := by simp [Ne.symm hj]
      fin_cases c0 <;>
        simp [Nat.testBit_or, testBit_xor_pow, hocc_bit, hij, hs, Nat.testBit_two_pow, WHITE, BLACK]
  · -- unoccupied is the complement
    rw [Board.unoccupied_removePiece, Board.occupied_removePiece]
  · -- attackable
    intro c
    rw [Board.attackable_removePiece, Board.all_pieces_removePiece]
    have hking : (b.removePiece c0 p0 i).pieces c KING =
        if c = c0 ∧ KING = p0 then b.pieces c0 p0 ^^^ shl64 1 i else b.pieces c KING :=
      Board.pieces_removePiece b c0 p0 i c KING
    by_cases hp : p0 ≠ KING
    · have hkeq : (b.removePiece c0 p0 i).pieces c KING = b.pieces c KING := by
        rw [hking, if_neg]
        rintro ⟨_, h2⟩
        exact hp h2.symm
      rw [hkeq]
      by_cases hc : c = c0
      · subst hc
        rw [if_pos ⟨hp, rfl⟩, if_pos rfl, hs]
        apply Nat.eq_of_testBit_eq
        intro j
        rw [testBit_xor_pow, Nat.testBit_and, testBit_xor_pow,
          not64_testBit _ _ (hrange c KING), hatt c, Nat.testBit_and,
          not64_testBit _ _ (hrange c KING)]
        by_cases hj : j = i
        · subst hj
          have hkf : (b.pieces c KING).testBit j = false := hother c KING (Or.inr (fun h => hp h.symm))
          simp [hall_i, hkf, hi]
        · have : decide (i = j) = false := by simp [Ne.symm hj]
          simp [this]
      · rw [if_neg (by tauto), if_neg hc]
        exact hatt c
    · push_neg at hp
      subst hp
      rw [if_neg (by tauto)]
      by_cases hc : c = c0
      · subst hc
        rw [if_pos rfl, hs]
        have hkeq : (b.removePiece c KING i).pieces c KING = b.pieces c KING ^^^ 2 ^ i := by
          rw [hking, if_pos ⟨rfl, rfl⟩, hs]
        rw [hkeq]
        apply Nat.eq_of_testBit_eq
        intro j
        rw [hatt c, Nat.testBit_and, Nat.testBit_and,
          not64_testBit _ _ (Nat.xor_lt_two_pow (hrange c KING) hslt),
          not64_testBit _ _ (hrange c KING), testBit_xor_pow, testBit_xor_pow]
        by_cases hj : j = i
        · subst hj
          simp [hbit, hall_i, hi]
        · have : decide (i = j) = false := by simp [Ne.symm hj]
          simp [this]
      · rw [if_neg hc]
        have hkeq : (b.removePiece c0 KING i).pieces c KING = b.pieces c KING := by
          rw [hking, if_neg (by tauto)]
        rw [hkeq]
        exact hatt c

end Chessatk

namespace Chessatk

theorem testBit_or_pow (X i j : Nat) :
    (X ||| 2 ^ i).testBit j = (X.testBit j || decide (i = j)) := by
  simp [Nat.testBit_or, Nat.testBit_two_pow]

theorem boardInv_addPiece (b : Board) (c0 : Fin 2) (p0 : Fin 6) (i : Nat)
    (hinv : boardInv b) (hi : i < 64) (hbit : b.occupied.testBit i = false) :
    boardInv (b.addPiece c0 p0 i) := by
  obtain ⟨hrange, hdisj, hall, hocc, hunocc, hatt⟩ := hinv
  have hs : shl64 1 i = 2 ^ i := by rw [shl64_one_eq, if_pos hi]
  have hslt : (2 : Nat) ^ i < 2 ^ 64 := Nat.pow_lt_pow_right (by omega) hi
  have hall_bit : ∀ c j, (b.all_pieces c).testBit j =
      ((b.pieces c PAWN).testBit j || (b.pieces c ROOK).testBit j
        || (b.pieces c BISHOP).testBit j || (b.pieces c QUEEN).testBit j
        || (b.pieces c KING).testBit j || (b.pieces c KNIGHT).testBit j) := by
    intro c j
    rw [hall c]
    simp [Nat.testBit_or]
  have hocc_bit : ∀ j, b.occupied.testBit j =
      ((b.all_pieces WHITE).testBit j || (b.all_pieces BLACK).testBit j) := by
    intro j
    rw [hocc]
    simp [Nat.testBit_or]
  have hall_f : ∀ c : Fin 2, (b.all_pieces c).testBit i = false := by
    intro c
    have h := hocc_bit i
    rw [hbit] at h
    rcases Bool.or_eq_false_iff.mp h.symm with ⟨h1, h2⟩
    fin_cases c
    · exact h1
    · exact h2
  have hp_f : ∀ (c : Fin 2) (p : Fin 6), (b.pieces c p).testBit i = false := by
    intro c p
    have h := hall_bit c i
    rw [hall_f c] at h
    have h' := h.symm
    fin_cases p <;>
      simp_all [PAWN, ROOK, KNIGHT, BISHOP, QUEEN, KING]
  refine ⟨?_, ?_, ?_, ?_, ?_, ?_⟩
  · -- range
    intro c p
    rw [Board.pieces_addPiece, hs]
    by_cases h : c = c0 ∧ p = p0
    · rw [if_pos h]
      exact Nat.or_lt_two_pow (hrange c0 p0) hslt
    · rw [if_neg h]
      exact hrange c p
  · -- pairwise disjoint
    intro c p c' p' h
    rw [Board.pieces_addPiece, Board.pieces_addPiece, hs]
    by_cases h1 : c = c0 ∧ p = p0 <;> by_cases h2 : c' = c0 ∧ p' = p0
    · exfalso
      obtain ⟨e1, e2⟩ := h1
      obtain ⟨e3, e4⟩ := h2
      subst e1; subst e2
      rcases h with h | h
      · exact h e3.symm
      · exact h e4.symm
    · rw [if_pos h1, if_neg h2]
      apply (and_eq_zero_iff_testBit _ _).mpr
      intro j
      by_cases hj : j = i
      · subst hj
        exact Or.inr (hp_f c' p')
      · rw [testBit_or_pow]
        have : decide (i = j) = false := by simp [Ne.symm hj]
        rw [this]
        have hd := (and_eq_zero_iff_testBit _ _).mp
          (hdisj c0 p0 c' p' (by tauto)) j
        simpa using hd
    · rw [if_neg h1, if_pos h2]
      apply (and_eq_zero_iff_testBit _ _).mpr
      intro j
      by_cases hj : j = i
      · subst hj
        exact Or.inl (hp_f c p)
      · rw [testBit_or_pow]
        have : decide (i = j) = false := by simp [Ne.symm hj]
        rw [this]
        have hd := (and_eq_zero_iff_testBit _ _).mp
          (hdisj c p c0 p0 (by tauto)) j
        simpa using hd
    · rw [if_neg h1, if_neg h2]
      exact hdisj c p c' p' h
  · -- all_pieces is the union
    intro c
    rw [Board.all_pieces_addPiece]
    by_cases hc : c = c0
    · subst hc
      rw [if_pos rfl, hs]
      apply Nat.eq_of_testBit_eq
      intro j
      rw [testBit_or_pow]
      simp only [Board.pieces_addPiece, hs]
      by_cases hj : j = i
      · subst hj
        have hcf : (b.all_pieces c).testBit j = false := hall_f c
        fin_cases p0 <;>
          simp_all [Nat.testBit_or, testBit_or_pow, WHITE, BLACK, PAWN, ROOK, KNIGHT,
            BISHOP, QUEEN, KING]
      · have : decide (i = j) = false := by simp [Ne.symm hj]
        rw [this, hall_bit]
        fin_cases p0 <;>
          simp_all [Nat.testBit_or, testBit_or_pow, WHITE, BLACK, PAWN, ROOK, KNIGHT,
            BISHOP, QUEEN, KING]
    · rw [if_neg hc]
      simp only [Board.pieces_addPiece]
      have hne : ∀ p : Fin 6, ¬ (c = c0 ∧ p = p0) := fun p h => hc h.1
      simp only [hne, if_false]
      exact hall c
  · -- occupied is the union of the two all_pieces
    rw [Board.occupied_addPiece, hs]
    rw [Board.all_pieces_addPiece, Board.all_pieces_addPiece]
    apply Nat.eq_of_testBit_eq
    intro j
    rw [testBit_or_pow]
    by_cases hj : j = i
    · subst hj
      rw [hbit]
      fin_cases c0
      · have haw : (b.all_pieces 0).testBit j = false := hall_f 0
        simp [Nat.testBit_or, testBit_or_pow, haw, hs, Nat.testBit_two_pow, WHITE, BLACK]
      · have hab : (b.all_pieces 1).testBit j = false := hall_f 1
        simp [Nat.testBit_or, testBit_or_pow, hab, hs, Nat.testBit_two_pow, WHITE, BLACK]
    · have hij : decide (i = j) = false := by simp [Ne.symm hj]
      fin_cases c0 <;>
        simp [Nat.testBit_or, testBit_or_pow, hocc_bit, hij, hs, Nat.testBit_two_pow,
          WHITE, BLACK]
  · -- unoccupied is the complement
    rw [Board.unoccupied_addPiece, Board.occupied_addPiece]
  · -- attackable
    intro c
    rw [Board.attackable_addPiece, Board.all_pieces_addPiece]
    have hking : (b.addPiece c0 p0 i).pieces c KING =
        if c = c0 ∧ KING = p0 then b.pieces c0 p0 ||| shl64 1 i else b.pieces c KING :=
      Board.pieces_addPiece b c0 p0 i c KING
    by_cases hp : p0 ≠ KING
    · have hkeq : (b.addPiece c0 p0 i).pieces c KING = b.pieces c KING := by
        rw [hking, if_neg]
        rintro ⟨_, h2⟩
        exact hp h2.symm
      rw [hkeq]
      by_cases hc : c = c0
      · subst hc
        rw [if_pos ⟨hp, rfl⟩, if_pos rfl, hs]
        apply Nat.eq_of_testBit_eq
        intro j
        rw [testBit_xor_pow, Nat.testBit_and, testBit_or_pow,
          not64_testBit _ _ (hrange c KING), hatt c, Nat.testBit_and,
          not64_testBit _ _ (hrange c KING)]
        by_cases hj : j = i
        · subst hj
          simp [hall_f c, hp_f c KING, hi]
        · have : decide (i = j) = false := by simp [Ne.symm hj]
          simp [this]
      · rw [if_neg (by tauto), if_neg hc]
        exact hatt c
    · push_neg at hp
      subst hp
      rw [if_neg (by tauto)]
      by_cases hc : c = c0
      · subst hc
        rw [if_pos rfl, hs]
        have hkeq : (b.addPiece c KING i).pieces c KING = b.pieces c KING ||| 2 ^ i := by
          rw [hking, if_pos ⟨rfl, rfl⟩, hs]
        rw [hkeq]
        apply Nat.eq_of_testBit_eq
        intro j
        rw [hatt c, Nat.testBit_and, Nat.testBit_and,
          not64_testBit _ _ (Nat.or_lt_two_pow (hrange c KING) hslt),
          not64_testBit _ _ (hrange c KING), testBit_or_pow, testBit_or_pow]
        by_cases hj : j = i
        · subst hj
          simp [hall_f c, hp_f c KING, hi]
        · have : decide (i = j) = false := by simp [Ne.symm hj]
          simp [this]
      · rw [if_neg hc]
        have hkeq : (b.addPiece c0 KING i).pieces c KING = b.pieces c KING := by
          rw [hking, if_neg (by tauto)]
        rw [hkeq]
        exact hatt c

end Chessatk

namespace Chessatk

theorem oppIdx_white : oppIdx WHITE = BLACK := rfl

theorem testBit_xor_shl64 (X i t : Nat) (h : t ≠ i) :
    (X ^^^ shl64 1 i).testBit t = X.testBit t := by
  rw [Nat.testBit_xor, testBit_shl64_one]
  simp [Ne.symm h]

theorem testBit_or_shl64 (X i t : Nat) (h : t ≠ i) :
    (X ||| shl64 1 i).testBit t = X.testBit t := by
  rw [Nat.testBit_or, testBit_shl64_one]
  simp [Ne.symm h]

theorem testBit_xor_shl64_self (X i : Nat) (hi : i < 64) :
    (X ^^^ shl64 1 i).testBit i = !X.testBit i := by
  rw [Nat.testBit_xor, testBit_shl64_one]
  simp [hi]

theorem applyMoveRevoke_squares (m : Move) (q : Position) :
    (applyMoveRevoke m q).squares = q.squares := by
  unfold applyMoveRevoke
  by_cases h1 : m.origin = 7 ∨ m.destination = 7 <;>
    by_cases h2 : m.origin = 0 ∨ m.destination = 0 <;>
      by_cases h3 : m.origin = 63 ∨ m.destination = 63 <;>
        by_cases h4 : m.origin = 56 ∨ m.destination = 56 <;>
          simp [h1, h2, h3, h4]

theorem applyMove_squares (p : Position) (m : Move) :
    (p.applyMove m).squares =
      (applyMoveSpecial p.en_passant_square m (p.pieceColorAt m.origin)
        (p.pieceKindAt (p.pieceColorAt m.origin) m.origin)
        { p with
          squares := (applyMoveMovement p m (p.pieceColorAt m.origin)
            (p.pieceKindAt (p.pieceColorAt m.origin) m.origin)),
          en_passant_square := 0 }).squares := by
  unfold Position.applyMove
  rw [applyMoveRevoke_squares]

theorem movement_blackPawn_bit (p : Position) (m : Move) (k : Fin 6) (t : Nat)
    (ht : t ≠ m.destination) :
    ((applyMoveMovement p m WHITE k).pieces BLACK PAWN).testBit t
      = (p.squares.pieces BLACK PAWN).testBit t := by
  unfold applyMoveMovement
  have hstep1 : ((p.squares.removePiece WHITE k m.origin).pieces BLACK PAWN)
      = p.squares.pieces BLACK PAWN := by
    rw [Board.pieces_removePiece, if_neg]
    rintro ⟨h, _⟩
    exact absurd h (by decide)
  have hmid : ∀ (b : Board),
      ((match p.destPieceKindAt (oppIdx WHITE) m.destination with
        | some pk => b.removePiece (oppIdx WHITE) pk m.destination
        | none => b).pieces BLACK PAWN).testBit t = (b.pieces BLACK PAWN).testBit t := by
    intro b
    cases hdk : p.destPieceKindAt (oppIdx WHITE) m.destination with
    | none => rfl
    | some pk =>
      simp only [oppIdx_white, Board.pieces_removePiece]
      by_cases hpk : (PAWN : Fin 6) = pk
      · subst hpk
        rw [if_pos (by simp), testBit_xor_shl64 _ _ _ ht]
      · rw [if_neg (by simp [hpk])]
  have haft : ∀ (b : Board) (k' : Fin 6),
      ((b.addPiece WHITE k' m.destination).pieces BLACK PAWN).testBit t
        = (b.pieces BLACK PAWN).testBit t := by
    intro b k'
    rw [Board.pieces_addPiece, if_neg]
    rintro ⟨h, _⟩
    exact absurd h (by decide)
  cases hp : m.promotion with
  | none =>
    simp only [haft, hmid, hstep1]
  | some pt =>
    cases pt <;> simp only [haft, hmid, hstep1]

end Chessatk

namespace Chessatk

theorem oppIdx_black : oppIdx BLACK = WHITE := rfl

theorem movement_whitePawn_bit (p : Position) (m : Move) (k : Fin 6) (t : Nat)
    (ht : t ≠ m.destination) :
    ((applyMoveMovement p m BLACK k).pieces WHITE PAWN).testBit t
      = (p.squares.pieces WHITE PAWN).testBit t := by
  unfold applyMoveMovement
  have hstep1 : ((p.squares.removePiece BLACK k m.origin).pieces WHITE PAWN)
      = p.squares.pieces WHITE PAWN := by
    rw [Board.pieces_removePiece, if_neg]
    rintro ⟨h, _⟩
    exact absurd h (by decide)
  have hmid : ∀ (b : Board),
      ((match p.destPieceKindAt (oppIdx BLACK) m.destination with
        | some pk => b.removePiece (oppIdx BLACK) pk m.destination
        | none => b).pieces WHITE PAWN).testBit t = (b.pieces WHITE PAWN).testBit t := by
    intro b
    cases hdk : p.destPieceKindAt (oppIdx BLACK) m.destination with
    | none => rfl
    | some pk =>
      simp only [oppIdx_black, Board.pieces_removePiece]
      by_cases hpk : (PAWN : Fin 6) = pk
      · subst hpk
        rw [if_pos (by simp), testBit_xor_shl64 _ _ _ ht]
      · rw [if_neg (by simp [hpk])]
  have haft : ∀ (b : Board) (k' : Fin 6),
      ((b.addPiece BLACK k' m.destination).pieces WHITE PAWN).testBit t
        = (b.pieces WHITE PAWN).testBit t := by
    intro b k'
    rw [Board.pieces_addPiece, if_neg]
    rintro ⟨h, _⟩
    exact absurd h (by decide)
  cases hp : m.promotion with
  | none =>
    simp only [haft, hmid, hstep1]
  | some pt =>
    cases pt <;> simp only [haft, hmid, hstep1]

theorem c3_test (p : Position) (m : Move)
    (hob : m.origin < 64) (hdlo : 8 ≤ m.destination) (hdhi : m.destination < 64)
    (hno16 : m.destination ≠ m.origin + 16)
    (heps : shl64 1 m.destination = p.en_passant_square)
    (hcol : p.squares.all_pieces BLACK &&& shl64 1 m.origin = 0)
    (hpawn : 0 < p.squares.pieces WHITE PAWN &&& shl64 1 m.origin)
    (hbp : (p.squares.pieces BLACK PAWN).testBit (m.destination - 8) = true) :
    ((p.applyMove m).squares.pieces BLACK PAWN).testBit (m.destination - 8) = false := by
  have hpc : p.pieceColorAt m.origin = WHITE := by
    unfold Position.pieceColorAt
    rw [hcol]
    simp
  have hpk : p.pieceKindAt WHITE m.origin = PAWN := by
    unfold Position.pieceKindAt
    rw [if_pos hpawn]
  have hw16 : wrapSub8 m.destination m.origin ≠ 16 := by
    unfold wrapSub8
    omega
  have hws : wrapSub8 m.destination 8 = m.destination - 8 := by
    unfold wrapSub8
    omega
  rw [applyMove_squares, hpc, hpk]
  unfold applyMoveSpecial
  rw [if_neg (by decide), if_neg (by decide), if_pos (by decide), if_neg hw16, if_pos heps]
  simp only [hws]
  rw [Board.pieces_removePiece, if_pos ⟨rfl, rfl⟩, testBit_xor_shl64_self _ _ (by omega)]
  rw [movement_blackPawn_bit _ _ _ _ (by omega), hbp]
  rfl

end Chessatk

namespace Chessatk

theorem c3b_test (p : Position) (m : Move)
    (hob : m.origin < 64) (hdhi : m.destination < 56)
    (hno16 : m.origin ≠ m.destination + 16)
    (heps : shl64 1 m.destination = p.en_passant_square)
    (hcol : 0 < p.squares.all_pieces BLACK &&& shl64 1 m.origin)
    (hpawn : 0 < p.squares.pieces BLACK PAWN &&& shl64 1 m.origin)
    (hwp : (p.squares.pieces WHITE PAWN).testBit (m.destination + 8) = true) :
    ((p.applyMove m).squares.pieces WHITE PAWN).testBit (m.destination + 8) = false := by
  have hpc : p.pieceColorAt m.origin = BLACK := by
    unfold Position.pieceColorAt
    rw [if_pos hcol]
  have hpk : p.pieceKindAt BLACK m.origin = PAWN := by
    unfold Position.pieceKindAt
    rw [if_pos hpawn]
  have hw16 : wrapSub8 m.origin m.destination ≠ 16 := by
    unfold wrapSub8
    omega
  have hmod : (m.destination + 8) % 256 = m.destination + 8 := by omega
  rw [applyMove_squares, hpc, hpk]
  unfold applyMoveSpecial
  rw [if_neg (by decide), if_neg (by decide), if_neg (by decide), if_pos (by decide),
    if_neg hw16, if_pos heps]
  simp only [hmod]
  rw [Board.pieces_removePiece, if_pos ⟨rfl, rfl⟩, testBit_xor_shl64_self _ _ (by omega)]
  rw [movement_whitePawn_bit _ _ _ _ (by omega), hwp]
  rfl

-- C5 support
theorem applyMoveSpecial_flags (old_eps : Nat) (m : Move) (pc : Fin 2) (pk : Fin 6)
    (q : Position) (hk : pk ≠ KING) :
    (applyMoveSpecial old_eps m pc pk q).white_kingside_castle = q.white_kingside_castle ∧
    (applyMoveSpecial old_eps m pc pk q).white_queenside_castle = q.white_queenside_castle ∧
    (applyMoveSpecial old_eps m pc pk q).black_kingside_castle = q.black_kingside_castle ∧
    (applyMoveSpecial old_eps m pc pk q).black_queenside_castle = q.black_queenside_castle := by
  unfold applyMoveSpecial
  rw [if_neg (by tauto), if_neg (by tauto)]
  by_cases h3 : pc = WHITE ∧ pk = PAWN
  · rw [if_pos h3]
    by_cases h4 : wrapSub8 m.destination m.origin = 16
    · simp [h4]
    · by_cases h5 : shl64 1 m.destination = old_eps <;> simp [h4, h5]
  · rw [if_neg h3]
    by_cases h6 : pc = BLACK ∧ pk = PAWN
    · rw [if_pos h6]
      by_cases h4 : wrapSub8 m.origin m.destination = 16
      · simp [h4]
      · by_cases h5 : shl64 1 m.destination = old_eps <;> simp [h4, h5]
    · rw [if_neg h6]
      exact ⟨rfl, rfl, rfl, rfl⟩

theorem applyMoveRevoke_flags (m : Move) (q : Position) :
    (applyMoveRevoke m q).white_kingside_castle
        = (q.white_kingside_castle && !(decide (m.origin = 7 ∨ m.destination = 7))) ∧
    (applyMoveRevoke m q).white_queenside_castle
        = (if m.origin = 7 ∨ m.destination = 7 then q.white_queenside_castle
           else q.white_queenside_castle && !(decide (m.origin = 0 ∨ m.destination = 0))) ∧
    (applyMoveRevoke m q).black_kingside_castle
        = (if (m.origin = 7 ∨ m.destination = 7) ∨ (m.origin = 0 ∨ m.destination = 0)
           then q.black_kingside_castle
           else q.black_kingside_castle && !(decide (m.origin = 63 ∨ m.destination = 63))) ∧
    (applyMoveRevoke m q).black_queenside_castle
        = (if (m.origin = 7 ∨ m.destination = 7) ∨ (m.origin = 0 ∨ m.destination = 0)
              ∨ (m.origin = 63 ∨ m.destination = 63)
           then q.black_queenside_castle
           else q.black_queenside_castle && !(decide (m.origin = 56 ∨ m.destination = 56))) := by
  unfold applyMoveRevoke
  by_cases h1 : m.origin = 7 ∨ m.destination = 7 <;>
    by_cases h2 : m.origin = 0 ∨ m.destination = 0 <;>
      by_cases h3 : m.origin = 63 ∨ m.destination = 63 <;>
        by_cases h4 : m.origin = 56 ∨ m.destination = 56 <;>
          simp [h1, h2, h3, h4]

theorem applyMove_flagsEq (p : Position) (m : Move) :
    ((p.applyMove m).white_kingside_castle, (p.applyMove m).white_queenside_castle,
     (p.applyMove m).black_kingside_castle, (p.applyMove m).black_queenside_castle)
    = ((applyMoveRevoke m (applyMoveSpecial p.en_passant_square m (p.pieceColorAt m.origin)
          (p.pieceKindAt (p.pieceColorAt m.origin) m.origin)
          { p with
            squares := (applyMoveMovement p m (p.pieceColorAt m.origin)
              (p.pieceKindAt (p.pieceColorAt m.origin) m.origin)),
            en_passant_square := 0 })).white_kingside_castle,
       (applyMoveRevoke m (applyMoveSpecial p.en_passant_square m (p.pieceColorAt m.origin)
          (p.pieceKindAt (p.pieceColorAt m.origin) m.origin)
          { p with
            squares := (applyMoveMovement p m (p.pieceColorAt m.origin)
              (p.pieceKindAt (p.pieceColorAt m.origin) m.origin)),
            en_passant_square := 0 })).white_queenside_castle,
       (applyMoveRevoke m (applyMoveSpecial p.en_passant_square m (p.pieceColorAt m.origin)
          (p.pieceKindAt (p.pieceColorAt m.origin) m.origin)
          { p with
            squares := (applyMoveMovement p m (p.pieceColorAt m.origin)
              (p.pieceKindAt (p.pieceColorAt m.origin) m.origin)),
            en_passant_square := 0 })).black_kingside_castle,
       (applyMoveRevoke m (applyMoveSpecial p.en_passant_square m (p.pieceColorAt m.origin)
          (p.pieceKindAt (p.pieceColorAt m.origin) m.origin)
          { p with
            squares := (applyMoveMovement p m (p.pieceColorAt m.origin)
              (p.pieceKindAt (p.pieceColorAt m.origin) m.origin)),
            en_passant_square := 0 })).black_queenside_castle) := rfl

end Chessatk

namespace Chessatk

theorem c5_castle_revocation_chain (p : Position) (m : Move)
    (hk : p.pieceKindAt (p.pieceColorAt m.origin) m.origin ≠ KING) :
    (p.applyMove m).white_kingside_castle
        = (p.white_kingside_castle && !(decide (m.origin = 7 ∨ m.destination = 7))) ∧
    (p.applyMove m).white_queenside_castle
        = (if m.origin = 7 ∨ m.destination = 7 then p.white_queenside_castle
           else p.white_queenside_castle && !(decide (m.origin = 0 ∨ m.destination = 0))) ∧
    (p.applyMove m).black_kingside_castle
        = (if (m.origin = 7 ∨ m.destination = 7) ∨ (m.origin = 0 ∨ m.destination = 0)
           then p.black_kingside_castle
           else p.black_kingside_castle && !(decide (m.origin = 63 ∨ m.destination = 63))) ∧
    (p.applyMove m).black_queenside_castle
        = (if (m.origin = 7 ∨ m.destination = 7) ∨ (m.origin = 0 ∨ m.destination = 0)
              ∨ (m.origin = 63 ∨ m.destination = 63)
           then p.black_queenside_castle
           else p.black_queenside_castle && !(decide (m.origin = 56 ∨ m.destination = 56))) := by
  have hsp := applyMoveSpecial_flags p.en_passant_square m (p.pieceColorAt m.origin)
      (p.pieceKindAt (p.pieceColorAt m.origin) m.origin)
      { p with
        squares := (applyMoveMovement p m (p.pieceColorAt m.origin)
          (p.pieceKindAt (p.pieceColorAt m.origin) m.origin)),
        en_passant_square := 0 } hk
  have hrv := applyMoveRevoke_flags m (applyMoveSpecial p.en_passant_square m
      (p.pieceColorAt m.origin) (p.pieceKindAt (p.pieceColorAt m.origin) m.origin)
      { p with
        squares := (applyMoveMovement p m (p.pieceColorAt m.origin)
          (p.pieceKindAt (p.pieceColorAt m.origin) m.origin)),
        en_passant_square := 0 })
  unfold Position.applyMove
  dsimp only
  refine ⟨?_, ?_, ?_, ?_⟩
  · rw [hrv.1, hsp.1]
  · rw [hrv.2.1, hsp.2.1]
  · rw [hrv.2.2.1, hsp.2.2.1]
  · rw [hrv.2.2.2, hsp.2.2.2]

end Chessatk

namespace Chessatk

theorem c4core (s : State) (m : Move)
    (hcap : s.position.squares.occupied &&& shl64 1 m.destination = 0)
    (hpawn : (s.position.squares.pieces WHITE PAWN ||| s.position.squares.pieces BLACK PAWN)
        &&& shl64 1 m.origin = 0) :
    (s.applyMove m).prior_positions = s.prior_positions ++ [s.position]
      ∧ (s.applyMove m).halfmove_clock = s.halfmove_clock + 1 := by
  have h1 : ¬ (0 < s.position.squares.occupied &&& shl64 1 m.destination
      ∨ 0 < (s.position.squares.pieces WHITE PAWN ||| s.position.squares.pieces BLACK PAWN)
          &&& shl64 1 m.origin) := by
    rw [hcap, hpawn]
    simp
  simp [State.applyMove, h1]

theorem searchCollect_append (l : List (Move × ℚ)) (a : Move × ℚ) :
    searchCollect (l ++ [a]) =
      if (searchCollect l).1 ≤ (a.2 : WithBot ℚ) then ((a.2 : WithBot ℚ), some a.1)
      else searchCollect l := by
  unfold searchCollect
  rw [List.foldl_append]
  rfl

theorem c6_last_max_collected (l : List (Move × ℚ)) (h : l ≠ []) :
    ∃ (m : Move) (q : ℚ) (l1 l2 : List (Move × ℚ)),
      searchCollect l = ((q : WithBot ℚ), some m)
      ∧ l = l1 ++ (m, q) :: l2
      ∧ (∀ x ∈ l1, x.2 ≤ q) ∧ (∀ x ∈ l2, x.2 < q) := by
  induction l using List.reverseRecOn with
  | nil => exact absurd rfl h
  | append_singleton l' a ih =>
    rcases eq_or_ne l' [] with hl' | hl'
    · subst hl'
      refine ⟨a.1, a.2, [], [], ?_, by simp, by simp, by simp⟩
      rw [searchCollect_append]
      simp [searchCollect]
    · obtain ⟨m, q, l1, l2, hsc, hsplit, hle, hlt⟩ := ih hl'
      rw [searchCollect_append, hsc]
      by_cases hcmp : ((q : WithBot ℚ)) ≤ (a.2 : WithBot ℚ)
      · refine ⟨a.1, a.2, l', [], by rw [if_pos hcmp], by simp, ?_, by simp⟩
        intro x hx
        have hqa : q ≤ a.2 := by exact_mod_cast hcmp
        rw [hsplit] at hx
        rcases List.mem_append.mp hx with hx | hx
        · exact le_trans (hle x hx) hqa
        · rcases List.mem_cons.mp hx with hx | hx
          · rw [hx]
            exact hqa
          · exact le_trans (le_of_lt (hlt x hx)) hqa
      · refine ⟨m, q, l1, l2 ++ [a], by rw [if_neg hcmp], ?_, hle, ?_⟩
        · rw [hsplit]
          simp
        · intro x hx
          rcases List.mem_append.mp hx with hx | hx
          · exact hlt x hx
          · rw [List.mem_singleton.mp hx]
            have hlt2 : (a.2 : WithBot ℚ) < (q : WithBot ℚ) := lt_of_not_le hcmp
            exact_mod_cast hlt2

end Chessatk

namespace Chessatk

theorem length_modifyNode (t : List Node) (i : Nat) (f : Node → Node) :
    (modifyNode t i f).length = t.length := by
  unfold modifyNode
  cases h : t[i]? with
  | none => rfl
  | some n => simp

theorem nodeAt_modifyNode (t : List Node) (i : Nat) (f : Node → Node) (j : Nat) :
    nodeAt (modifyNode t i f) j =
      if j = i ∧ i < t.length then f (nodeAt t i) else nodeAt t j := by
  unfold modifyNode nodeAt
  cases h : t[i]? with
  | none =>
    have hlen : ¬ i < t.length := by
      intro hc
      rw [List.getElem?_eq_getElem hc] at h
      exact Option.noConfusion h
    rw [if_neg (fun hh => hlen hh.2)]
  | some n =>
    have hlen : i < t.length := by
      by_contra hc
      rw [List.getElem?_eq_none (by omega)] at h
      exact Option.noConfusion h
    by_cases hj : j = i
    · subst hj
      rw [if_pos ⟨rfl, hlen⟩]
      rw [List.getElem?_set_self (by omega)]
      have : t[j]?.getD defaultNode = n := by rw [h]; rfl
      simp [h]
    · rw [if_neg (fun hh => hj hh.1)]
      rw [List.getElem?_set_ne (fun hh => hj hh.symm)]

theorem nodeAt_append_lt (t : List Node) (n : Node) (j : Nat) (h : j < t.length) :
    nodeAt (t ++ [n]) j = nodeAt t j := by
  unfold nodeAt
  rw [List.getElem?_append, if_pos h]

theorem nodeAt_append_eq (t : List Node) (n : Node) :
    nodeAt (t ++ [n]) t.length = n := by
  unfold nodeAt
  rw [List.getElem?_append_right (le_refl _)]
  simp

theorem status_ongoing_moves_ne_nil (s : State) (moves : List Move)
    (h : s.status moves = GameStatus.Ongoing) : moves ≠ [] := by
  intro hnil
  subst hnil
  unfold State.status at h
  by_cases h1 : 2 ≤ (s.prior_positions.filter (fun x => decide (x = s.position))).length
  · rw [if_pos h1] at h
    exact GameStatus.noConfusion h
  · rw [if_neg h1] at h
    by_cases h2 : s.position.inCheck s.position.side_to_move
    · simp only [List.isEmpty_nil, h2] at h
      split at h <;> exact GameStatus.noConfusion h
    · simp only [List.isEmpty_nil, h2] at h
      exact GameStatus.noConfusion h

end Chessatk

namespace Chessatk

theorem pathOK_lower (tree : List Node) (root : Nat) :
    ∀ p, pathOK tree root p → ∀ z ∈ p, root ≤ z := by
  intro p
  induction p with
  | nil => intro h; exact absurd h (by simp [pathOK])
  | cons x rest ih =>
    intro h z hz
    cases rest with
    | nil =>
      obtain ⟨h1, _⟩ := h
      rcases List.mem_singleton.mp hz with rfl
      omega
    | cons y rest' =>
      obtain ⟨_, _, hyx, htail⟩ := h
      rcases List.mem_cons.mp hz with rfl | hz'
      · have := ih htail y (List.mem_cons_self _ _)
        omega
      · exact ih htail z hz'

theorem pathOK_head_max (tree : List Node) (root : Nat) :
    ∀ (x : Nat) (rest : List Nat), pathOK tree root (x :: rest) → ∀ z ∈ rest, z < x := by
  intro x rest
  induction rest generalizing x with
  | nil => intro _ z hz; exact absurd hz (by simp)
  | cons y rest' ih =>
    intro h z hz
    obtain ⟨_, _, hyx, htail⟩ := h
    rcases List.mem_cons.mp hz with rfl | hz'
    · exact hyx
    · exact lt_trans (ih y htail z hz') hyx

theorem pathOK_length (tree : List Node) (root : Nat) :
    ∀ p, pathOK tree root p → ∀ x ∈ p.head?, p.length ≤ x + 1 := by
  intro p
  induction p with
  | nil => intro h; exact absurd h (by simp [pathOK])
  | cons a rest ih =>
    intro h x hx
    rcases Option.mem_some_iff.mp hx with rfl
    cases rest with
    | nil => simp
    | cons y rest' =>
      obtain ⟨_, _, hyx, htail⟩ := h
      have := ih htail y (by simp)
      simp only [List.length_cons] at *
      omega

theorem pathOK_members_lt (tree : List Node) (root : Nat) :
    ∀ p, pathOK tree root p → ∀ z ∈ p, z < tree.length := by
  intro p
  induction p with
  | nil => intro h; exact absurd h (by simp [pathOK])
  | cons a rest ih =>
    intro h z hz
    cases rest with
    | nil =>
      obtain ⟨_, h2⟩ := h
      rcases List.mem_singleton.mp hz with rfl
      exact h2
    | cons y rest' =>
      obtain ⟨h1, _, _, htail⟩ := h
      rcases List.mem_cons.mp hz with rfl | hz'
      · exact h1
      · exact ih htail z hz'

/-- `pathOK` only depends on the tree through its length and the parent pointers of the
path members. -/
theorem pathOK_congr (t t' : List Node) (root : Nat)
    (hlen : t.length = t'.length)
    (hpar : ∀ i, i < t.length → (nodeAt t' i).parent = (nodeAt t i).parent) :
    ∀ p, pathOK t root p → pathOK t' root p := by
  intro p
  induction p with
  | nil => intro h; exact absurd h (by simp [pathOK])
  | cons a rest ih =>
    intro h
    cases rest with
    | nil =>
      obtain ⟨h1, h2⟩ := h
      exact ⟨h1, by omega⟩
    | cons y rest' =>
      obtain ⟨h1, h2, h3, htail⟩ := h
      exact ⟨by omega, by rw [hpar a h1]; exact h2, h3, ih htail⟩

theorem pathOK_append (tree : List Node) (c cur : Nat) :
    ∀ p, pathOK tree c p → (nodeAt tree c).parent = cur → cur < c → cur < tree.length →
      pathOK tree cur (p ++ [cur]) := by
  intro p
  induction p with
  | nil => intro h; exact absurd h (by simp [pathOK])
  | cons a rest ih =>
    intro h hpar hlt hcur
    cases rest with
    | nil =>
      obtain ⟨rfl, h2⟩ := h
      exact ⟨h2, hpar, hlt, rfl, hcur⟩
    | cons y rest' =>
      obtain ⟨h1, h2, h3, htail⟩ := h
      exact ⟨h1, h2, h3, ih htail hpar hlt hcur⟩

end Chessatk



namespace Chessatk

theorem length_bpUpdate (tree : List Node) (cur : Nat) (gs : GameStatus) (ds : Bool) :
    (bpUpdate tree cur gs ds).length = tree.length := by
  unfold bpUpdate
  rw [length_modifyNode]

theorem parent_bpUpdate (tree : List Node) (cur : Nat) (gs : GameStatus) (ds : Bool)
    (i : Nat) : (nodeAt (bpUpdate tree cur gs ds) i).parent = (nodeAt tree i).parent := by
  unfold bpUpdate
  rw [nodeAt_modifyNode]
  by_cases hix : i = cur ∧ cur < tree.length
  · rw [if_pos hix]
    obtain ⟨rfl, _⟩ := hix
    rfl
  · rw [if_neg hix]

theorem unobs_bpUpdate (tree : List Node) (cur : Nat) (gs : GameStatus) (ds : Bool)
    (hcur : cur < tree.length) (i : Nat) :
    (nodeAt (bpUpdate tree cur gs ds) i).stats.unobserved_simulations =
      (nodeAt tree i).stats.unobserved_simulations - (if i = cur then 1 else 0) := by
  unfold bpUpdate
  rw [nodeAt_modifyNode]
  by_cases hix : i = cur ∧ cur < tree.length
  · obtain ⟨rfl, _⟩ := hix
    rw [if_pos ⟨rfl, hcur⟩, if_pos rfl]
  · rw [if_neg hix]
    have : ¬ i = cur := fun hc => hix ⟨hc, hcur⟩
    rw [if_neg this]
    simp

theorem backpropLoop_spec (root : Nat) (gs : GameStatus) (ds : Bool) :
    ∀ (p : List Nat) (fuel : Nat) (tree : List Node) (cur : Nat),
      pathOK tree root p → p.head? = some cur → p.length ≤ fuel →
      ∃ tree', backpropLoop fuel tree root gs ds cur = some tree' ∧
        tree'.length = tree.length ∧
        (∀ i, i < tree.length → (nodeAt tree' i).parent = (nodeAt tree i).parent) ∧
        (∀ i, (nodeAt tree' i).stats.unobserved_simulations =
          (nodeAt tree i).stats.unobserved_simulations - (if i ∈ p then 1 else 0)) := by
  intro p
  induction p with
  | nil => intro fuel tree cur h; exact absurd h (by simp [pathOK])
  | cons x rest ih =>
    intro fuel tree cur hpath hhead hfuel
    rcases Option.some_inj.mp hhead.symm with rfl
    match fuel, hfuel with
    | f + 1, hf =>
    cases rest with
    | nil =>
      obtain ⟨rfl, hlen⟩ := hpath
      refine ⟨bpUpdate tree cur gs ds, ?_, length_bpUpdate _ _ _ _,
        fun i _ => parent_bpUpdate _ _ _ _ _, ?_⟩
      · show backpropLoop (f + 1) tree cur gs ds cur = _
        simp [backpropLoop]
      · intro i
        rw [unobs_bpUpdate _ _ _ _ hlen]
        by_cases hix : i = cur
        · rw [if_pos hix, if_pos (by simp [hix])]
        · rw [if_neg hix, if_neg (by simp [hix])]
    | cons y rest' =>
      obtain ⟨hxlen, hxpar, hyx, htail⟩ := hpath
      have hroot_le : root ≤ y := pathOK_lower tree root _ htail y (by simp)
      have hxroot : cur ≠ root := by omega
      have hlen1 : (bpUpdate tree cur gs ds).length = tree.length := length_bpUpdate _ _ _ _
      have hpar1 : ∀ i, (nodeAt (bpUpdate tree cur gs ds) i).parent = (nodeAt tree i).parent :=
        parent_bpUpdate _ _ _ _
      have htail1 : pathOK (bpUpdate tree cur gs ds) root (y :: rest') :=
        pathOK_congr tree _ root hlen1.symm (fun i _ => hpar1 i) _ htail
      obtain ⟨tree', heq, hlen', hpar', hunobs'⟩ :=
        ih f (bpUpdate tree cur gs ds) y htail1 rfl
          (by simp only [List.length_cons] at hf ⊢; omega)
      refine ⟨tree', ?_, by rw [hlen', hlen1], ?_, ?_⟩
      · show backpropLoop (f + 1) tree root gs ds cur = some tree'
        simp only [backpropLoop, if_neg hxroot]
        rw [hpar1 cur, hxpar]
        exact heq
      · intro i hi
        rw [hpar' i (by rw [hlen1]; exact hi), hpar1 i]
      · intro i
        rw [hunobs' i, unobs_bpUpdate _ _ _ _ hxlen]
        by_cases hix : i = cur
        · subst hix
          have hnot : ¬ i ∈ y :: rest' := by
            intro hc
            exact absurd (pathOK_head_max tree root i (y :: rest') ⟨hxlen, hxpar, hyx, htail⟩ i hc)
              (lt_irrefl i)
          rw [if_neg hnot, if_pos (List.mem_cons_self _ _), if_pos rfl]
          simp
        · rw [if_neg hix]
          by_cases hmem : i ∈ y :: rest'
          · rw [if_pos hmem, if_pos (List.mem_cons_of_mem _ hmem)]
            simp
          · rw [if_neg hmem, if_neg (by simp [hix, hmem])]
            simp

end Chessatk

namespace Chessatk

theorem nodeAt_oob (t : List Node) (i : Nat) (h : t.length ≤ i) : nodeAt t i = defaultNode := by
  unfold nodeAt
  rw [List.getElem?_eq_none h]
  rfl

theorem nodeAt_append_len (t : List Node) (n : Node) (j : Nat) (h : j = t.length) :
    nodeAt (t ++ [n]) j = n := by
  subst h
  exact nodeAt_append_eq t n

theorem length_incUnobserved (t : List Node) (cur : Nat) :
    (incUnobserved t cur).length = t.length := length_modifyNode _ _ _

theorem nodeAt_incUnobserved (t : List Node) (cur i : Nat) :
    nodeAt (incUnobserved t cur) i =
      if i = cur ∧ cur < t.length then
        { nodeAt t cur with stats := { (nodeAt t cur).stats with
            unobserved_simulations := (nodeAt t cur).stats.unobserved_simulations + 1 } }
      else nodeAt t i := by
  unfold incUnobserved
  rw [nodeAt_modifyNode]

theorem parent_incUnobserved (t : List Node) (cur i : Nat) :
    (nodeAt (incUnobserved t cur) i).parent = (nodeAt t i).parent := by
  rw [nodeAt_incUnobserved]
  by_cases h : i = cur ∧ cur < t.length
  · rw [if_pos h, h.1]
  · rw [if_neg h]

theorem children_incUnobserved (t : List Node) (cur i : Nat) :
    (nodeAt (incUnobserved t cur) i).children = (nodeAt t i).children := by
  rw [nodeAt_incUnobserved]
  by_cases h : i = cur ∧ cur < t.length
  · rw [if_pos h, h.1]
  · rw [if_neg h]

theorem unobs_incUnobserved (t : List Node) (cur : Nat) (hcur : cur < t.length) (i : Nat) :
    (nodeAt (incUnobserved t cur) i).stats.unobserved_simulations =
      (nodeAt t i).stats.unobserved_simulations + (if i = cur then 1 else 0) := by
  rw [nodeAt_incUnobserved]
  by_cases h : i = cur
  · subst h
    rw [if_pos ⟨rfl, hcur⟩, if_pos rfl]
  · rw [if_neg (fun hh => h hh.1), if_neg h]
    simp

theorem length_shuffleChildren (sh : Nat → List Nat → List Nat) (k : Nat)
    (t : List Node) (cur : Nat) :
    (shuffleChildren sh k t cur).length = t.length := length_modifyNode _ _ _

theorem nodeAt_shuffleChildren (sh : Nat → List Nat → List Nat) (k : Nat)
    (t : List Node) (cur i : Nat) :
    nodeAt (shuffleChildren sh k t cur) i =
      if i = cur ∧ cur < t.length then
        { nodeAt t cur with children := sh k (nodeAt t cur).children }
      else nodeAt t i := by
  unfold shuffleChildren
  rw [nodeAt_modifyNode]

theorem parent_shuffleChildren (sh : Nat → List Nat → List Nat) (k : Nat)
    (t : List Node) (cur i : Nat) :
    (nodeAt (shuffleChildren sh k t cur) i).parent = (nodeAt t i).parent := by
  rw [nodeAt_shuffleChildren]
  by_cases h : i = cur ∧ cur < t.length
  · rw [if_pos h, h.1]
  · rw [if_neg h]

theorem stats_shuffleChildren (sh : Nat → List Nat → List Nat) (k : Nat)
    (t : List Node) (cur i : Nat) :
    (nodeAt (shuffleChildren sh k t cur) i).stats = (nodeAt t i).stats := by
  rw [nodeAt_shuffleChildren]
  by_cases h : i = cur ∧ cur < t.length
  · rw [if_pos h, h.1]
  · rw [if_neg h]

/-- Well-formedness transfers along any tree surgery that keeps the length, shrinks no
parent pointer, and only removes children. -/
theorem treeWF_sub (t t' : List Node) (hlen : t'.length = t.length)
    (hch : ∀ i, ∀ c ∈ (nodeAt t' i).children, c ∈ (nodeAt t i).children)
    (hpar : ∀ i, (nodeAt t' i).parent = (nodeAt t i).parent)
    (h : treeWF t) : treeWF t' := by
  intro i hi c hc
  obtain ⟨h1, h2, h3⟩ := h i (by omega) c (hch i c hc)
  exact ⟨h1, by omega, by rw [hpar]; exact h3⟩

theorem length_expandChild (t : List Node) (cur : Nat) (m : Move) (pl : Color) :
    (expandChild t cur m pl).length = t.length + 1 := by
  unfold expandChild
  rw [List.length_append, length_modifyNode]
  rfl

theorem nodeAt_expandChild_lt (t : List Node) (cur : Nat) (m : Move) (pl : Color)
    (i : Nat) (h : i < t.length) :
    nodeAt (expandChild t cur m pl) i =
      if i = cur ∧ cur < t.length then
        { nodeAt t cur with children := (nodeAt t cur).children ++ [t.length] }
      else nodeAt t i := by
  unfold expandChild
  rw [nodeAt_append_lt _ _ _ (by rw [length_modifyNode]; exact h), nodeAt_modifyNode]

theorem nodeAt_expandChild_eq (t : List Node) (cur : Nat) (m : Move) (pl : Color) :
    nodeAt (expandChild t cur m pl) t.length =
      { last_move := m, last_player := pl, parent := cur, children := [],
        stats := { score := MScore.fin 0, unobserved_simulations := 1,
                   simulations := 0 } } := by
  simp only [expandChild]
  exact nodeAt_append_len _ _ _ (length_modifyNode _ _ _).symm

theorem parent_expandChild_lt (t : List Node) (cur : Nat) (m : Move) (pl : Color)
    (i : Nat) (h : i < t.length) :
    (nodeAt (expandChild t cur m pl) i).parent = (nodeAt t i).parent := by
  rw [nodeAt_expandChild_lt _ _ _ _ _ h]
  by_cases hh : i = cur ∧ cur < t.length
  · rw [if_pos hh, hh.1]
  · rw [if_neg hh]

theorem stats_expandChild_lt (t : List Node) (cur : Nat) (m : Move) (pl : Color)
    (i : Nat) (h : i < t.length) :
    (nodeAt (expandChild t cur m pl) i).stats = (nodeAt t i).stats := by
  rw [nodeAt_expandChild_lt _ _ _ _ _ h]
  by_cases hh : i = cur ∧ cur < t.length
  · rw [if_pos hh, hh.1]
  · rw [if_neg hh]

theorem pathOK_ne_nil (t : List Node) (root : Nat) (p : List Nat) (h : pathOK t root p) :
    p ≠ [] := by
  intro hnil
  subst hnil
  exact absurd h (by simp [pathOK])

end Chessatk

namespace Chessatk

/-- Full specification of one selection/expansion walk: it succeeds given enough fuel
on a well-formed arena, grows the arena by at most one node, preserves all existing
parent pointers, and the visited path is a valid parent chain from the reached leaf
down to the starting node along which exactly the `unobserved_simulations` counters
were incremented (by one each). -/
theorem selectLoop_spec (shuffleO : Nat → List Nat → List Nat) (pickO : Nat → List Nat → Nat)
    (hsh : ∀ k l, (shuffleO k l).Perm l)
    (hpk : ∀ k l, l ≠ [] → pickO k l ∈ l) :
    ∀ (fuel : Nat) (tree : List Node) (cur : Nat) (k : Nat) (g : State),
      treeWF tree → cur < tree.length → tree.length - cur ≤ fuel →
      ∃ tree' leaf g' st ds path,
        selectLoop shuffleO pickO fuel k tree cur g = some (tree', leaf, g', st, ds, path) ∧
        tree.length ≤ tree'.length ∧ tree'.length ≤ tree.length + 1 ∧
        (∀ i, i < tree.length → (nodeAt tree' i).parent = (nodeAt tree i).parent) ∧
        pathOK tree' cur path ∧
        path.head? = some leaf ∧
        (∀ i, (nodeAt tree' i).stats.unobserved_simulations =
          (nodeAt tree i).stats.unobserved_simulations + (if i ∈ path then 1 else 0)) := by
  intro fuel
  induction fuel with
  | zero =>
    intro tree cur k g _ hcur hfuel
    exfalso
    omega
  | succ f ih =>
    intro tree cur k g hwf hcur hfuel
    set tree1 := incUnobserved tree cur with htree1
    have hT1len : tree1.length = tree.length := length_incUnobserved _ _
    by_cases hterm : g.status (g.genMoves true) ≠ GameStatus.Ongoing ∨
        (nodeAt tree1 cur).stats.score.isInfinite
    · refine ⟨tree1, cur, g, g.status (g.genMoves true), false, [cur],
        ?_, ?_, ?_, ?_, ?_, ?_, ?_⟩
      · show selectLoop shuffleO pickO (f + 1) k tree cur g = _
        simp only [selectLoop]
        rw [← htree1, if_pos hterm]
      · omega
      · omega
      · intro i _
        rw [htree1]
        exact parent_incUnobserved _ _ _
      · exact ⟨rfl, by omega⟩
      · rfl
      · intro i
        rw [htree1, unobs_incUnobserved tree cur hcur i]
        by_cases h : i = cur
        · subst h
          simp
        · simp [h]
    · have hterm2 : ¬ (g.status (g.genMoves true) ≠ GameStatus.Ongoing ∨
          (nodeAt tree1 cur).stats.score.isInfinite) := hterm
      push_neg at hterm
      obtain ⟨hst, _⟩ := hterm
      set tree2 := shuffleChildren shuffleO k tree1 cur with htree2
      have hT2len : tree2.length = tree.length := by
        rw [htree2, length_shuffleChildren, hT1len]
      have hT2par : ∀ i, (nodeAt tree2 i).parent = (nodeAt tree i).parent := by
        intro i
        rw [htree2, parent_shuffleChildren, htree1, parent_incUnobserved]
      have hT2unobs : ∀ i, (nodeAt tree2 i).stats.unobserved_simulations =
          (nodeAt tree i).stats.unobserved_simulations + (if i = cur then 1 else 0) := by
        intro i
        rw [htree2, stats_shuffleChildren, htree1, unobs_incUnobserved tree cur hcur i]
      have hT2wf : treeWF tree2 := by
        refine treeWF_sub tree tree2 (by omega) ?_ hT2par hwf
        intro i c hc
        rw [htree2, nodeAt_shuffleChildren] at hc
        by_cases hcase : i = cur ∧ cur < tree1.length
        · rw [if_pos hcase] at hc
          have hc' : c ∈ shuffleO k (nodeAt tree1 cur).children := hc
          have hmem := (hsh k (nodeAt tree1 cur).children).mem_iff.mp hc'
          rw [htree1, children_incUnobserved] at hmem
          rw [hcase.1]
          exact hmem
        · rw [if_neg hcase] at hc
          rw [htree1, children_incUnobserved] at hc
          exact hc
      cases hfind : (g.genMoves true).find? (fun m =>
          !((nodeAt tree2 cur).children.any (fun x => (nodeAt tree2 x).last_move == m))) with
      | some a_move =>
        refine ⟨expandChild tree2 cur a_move g.position.side_to_move, tree2.length,
          g.applyMove a_move,
          (g.applyMove a_move).status ((g.applyMove a_move).genMoves true), true,
          [tree2.length, cur], ?_, ?_, ?_, ?_, ?_, ?_, ?_⟩
        · show selectLoop shuffleO pickO (f + 1) k tree cur g = _
          simp only [selectLoop]
          rw [← htree1, if_neg hterm2, ← htree2, hfind]
        · rw [length_expandChild]
          omega
        · rw [length_expandChild]
          omega
        · intro i hi
          rw [parent_expandChild_lt tree2 cur a_move g.position.side_to_move i (by omega)]
          exact hT2par i
        · refine ⟨?_, ?_, by omega, rfl, ?_⟩
          · rw [length_expandChild]
            omega
          · rw [nodeAt_expandChild_eq]
          · rw [length_expandChild]
            omega
        · rfl
        · intro i
          rcases Nat.lt_trichotomy i tree.length with hlt | heq | hgt
          · rw [stats_expandChild_lt tree2 cur a_move g.position.side_to_move i (by omega),
              hT2unobs i]
            have hne : i ≠ tree2.length := by omega
            by_cases hic : i = cur
            · simp [hic, hne]
            · simp [hic, hne]
          · subst heq
            rw [← hT2len, nodeAt_expandChild_eq, nodeAt_oob tree tree2.length (by omega)]
            simp [defaultNode]
          · have hoob : (expandChild tree2 cur a_move g.position.side_to_move).length ≤ i := by
              rw [length_expandChild]
              omega
            have hne1 : i ≠ tree2.length := by omega
            have hne2 : i ≠ cur := by omega
            rw [nodeAt_oob _ i hoob, nodeAt_oob tree i (by omega)]
            simp [defaultNode, hne1, hne2]
      | none =>
        have hmne : g.genMoves true ≠ [] := status_ongoing_moves_ne_nil g _ hst
        obtain ⟨m0, hm0⟩ := List.exists_mem_of_ne_nil _ hmne
        have hpred := List.find?_eq_none.mp hfind m0 hm0
        have hany : (nodeAt tree2 cur).children.any
            (fun x => (nodeAt tree2 x).last_move == m0) = true := by
          simpa using hpred
        have hchne : (nodeAt tree2 cur).children ≠ [] := by
          intro hnil
          rw [hnil] at hany
          simp at hany
        have hcmem := hpk k (nodeAt tree2 cur).children hchne
        set c := pickO k (nodeAt tree2 cur).children with hcdef
        obtain ⟨hcurc, hclen, hcpar⟩ := hT2wf cur (by omega) c hcmem
        obtain ⟨tree', leaf, g', st, ds, pin, heq, hl1, hl2, hpar', hpok', hhd', hun'⟩ :=
          ih tree2 c (k + 1) (g.applyMove (nodeAt tree2 c).last_move) hT2wf hclen (by omega)
        refine ⟨tree', leaf, g', st, ds, pin ++ [cur], ?_, by omega, by omega, ?_, ?_, ?_, ?_⟩
        · show selectLoop shuffleO pickO (f + 1) k tree cur g = _
          simp only [selectLoop]
          rw [← htree1, if_neg hterm2, ← htree2, hfind, ← hcdef, heq]
        · intro i hi
          rw [hpar' i (by omega)]
          exact hT2par i
        · refine pathOK_append tree' c cur pin hpok' ?_ hcurc (by omega)
          rw [hpar' c (by omega)]
          exact hcpar
        · cases pin with
          | nil => exact absurd hpok' (by simp [pathOK])
          | cons a t =>
            simp only [List.cons_append, List.head?_cons] at hhd' ⊢
            exact hhd'
        · intro i
          rw [hun' i, hT2unobs i]
          have hlow := pathOK_lower tree' c pin hpok'
          by_cases hip : i ∈ pin
          · have hci : c ≤ i := hlow i hip
            have hne : i ≠ cur := by omega
            simp [List.mem_append, hip, hne]
          · by_cases hic : i = cur
            · subst hic
              simp [List.mem_append, hip]
            · simp [List.mem_append, hip, hic]

end Chessatk

namespace Chessatk

theorem length_assignTerminalScore (t : List Node) (leaf : Nat) (gs : GameStatus) :
    (assignTerminalScore t leaf gs).length = t.length := by
  unfold assignTerminalScore
  cases gs with
  | Victory p => exact length_modifyNode _ _ _
  | Draw => rfl
  | Ongoing => rfl

theorem parent_assignTerminalScore (t : List Node) (leaf : Nat) (gs : GameStatus) (i : Nat) :
    (nodeAt (assignTerminalScore t leaf gs) i).parent = (nodeAt t i).parent := by
  unfold assignTerminalScore
  cases gs with
  | Victory p =>
    rw [nodeAt_modifyNode]
    by_cases h : i = leaf ∧ leaf < t.length
    · rw [if_pos h, h.1]
    · rw [if_neg h]
  | Draw => rfl
  | Ongoing => rfl

theorem unobs_assignTerminalScore (t : List Node) (leaf : Nat) (gs : GameStatus) (i : Nat) :
    (nodeAt (assignTerminalScore t leaf gs) i).stats.unobserved_simulations =
      (nodeAt t i).stats.unobserved_simulations := by
  unfold assignTerminalScore
  cases gs with
  | Victory p =>
    rw [nodeAt_modifyNode]
    by_cases h : i = leaf ∧ leaf < t.length
    · rw [if_pos h, h.1]
    · rw [if_neg h]
  | Draw => rfl
  | Ongoing => rfl

/-- Core C10 theorem: one full MCTS iteration (selection with virtual-loss increments,
optional terminal-score assignment, back-propagation with decrements) succeeds on a
well-formed arena and restores every node's `unobserved_simulations` counter to its
value before the iteration; the root is unchanged and the arena grows by at most one
node, whose parent pointer is the node it was expanded from. -/
theorem mctsIteration_unobs (shuffleO : Nat → List Nat → List Nat)
    (pickO : Nat → List Nat → Nat) (simStatus : GameStatus)
    (hsh : ∀ k l, (shuffleO k l).Perm l)
    (hpk : ∀ k l, l ≠ [] → pickO k l ∈ l)
    (ms : MctsState) (state : State)
    (hwf : treeWF ms.tree) (hroot : ms.root < ms.tree.length) :
    ∃ ms', mctsIteration shuffleO pickO simStatus ms state = some ms' ∧
      ms'.root = ms.root ∧
      ms.tree.length ≤ ms'.tree.length ∧ ms'.tree.length ≤ ms.tree.length + 1 ∧
      (∀ i, i < ms.tree.length →
        (nodeAt ms'.tree i).parent = (nodeAt ms.tree i).parent) ∧
      (∀ i, (nodeAt ms'.tree i).stats.unobserved_simulations =
        (nodeAt ms.tree i).stats.unobserved_simulations) := by
  obtain ⟨tree1, leaf, g', st0, ds, path, hsel, hl1, hl2, hpar1, hpok, hhd, hun1⟩ :=
    selectLoop_spec shuffleO pickO hsh hpk (ms.tree.length + 1) ms.tree ms.root 0 state
      hwf hroot (by omega)
  set gs2 := if ds ∧ st0 = GameStatus.Ongoing then simStatus else st0 with hgs2
  set tree2 := if !ds then assignTerminalScore tree1 leaf gs2 else tree1 with htree2
  have hT2len : tree2.length = tree1.length := by
    rw [htree2]
    by_cases h : (!ds) = true
    · rw [if_pos h, length_assignTerminalScore]
    · rw [if_neg h]
  have hT2par : ∀ i, (nodeAt tree2 i).parent = (nodeAt tree1 i).parent := by
    intro i
    rw [htree2]
    by_cases h : (!ds) = true
    · rw [if_pos h, parent_assignTerminalScore]
    · rw [if_neg h]
  have hT2un : ∀ i, (nodeAt tree2 i).stats.unobserved_simulations =
      (nodeAt tree1 i).stats.unobserved_simulations := by
    intro i
    rw [htree2]
    by_cases h : (!ds) = true
    · rw [if_pos h, unobs_assignTerminalScore]
    · rw [if_neg h]
  have hpok2 : pathOK tree2 ms.root path :=
    pathOK_congr tree1 tree2 ms.root hT2len.symm (fun i _ => hT2par i) path hpok
  have hleaflt : leaf < tree1.length := by
    have := pathOK_members_lt tree1 ms.root path hpok leaf ?_
    · exact this
    · cases path with
      | nil => exact absurd hpok (by simp [pathOK])
      | cons a t =>
        have : a = leaf := by simpa using hhd
        rw [← this]
        exact List.mem_cons_self _ _
  have hplen : path.length ≤ leaf + 1 := by
    have h2 : pathOK tree2 ms.root path := hpok2
    exact pathOK_length tree1 ms.root path hpok leaf (by rw [hhd]; rfl)
  obtain ⟨tree3, hbp, hl3, hpar3, hun3⟩ :=
    backpropLoop_spec ms.root gs2 ds path (tree2.length + 1) tree2 leaf hpok2
      hhd (by omega)
  refine ⟨{ tree := tree3, root := ms.root }, ?_, rfl, ?_, ?_, ?_, ?_⟩
  · show mctsIteration shuffleO pickO simStatus ms state = _
    simp only [mctsIteration]
    rw [hsel]
    dsimp only
    rw [← hgs2, ← htree2, hbp]
  · show ms.tree.length ≤ tree3.length
    omega
  · show tree3.length ≤ ms.tree.length + 1
    omega
  · intro i hi
    show (nodeAt tree3 i).parent = (nodeAt ms.tree i).parent
    rw [hpar3 i (by omega), hT2par i, hpar1 i hi]
  · intro i
    show (nodeAt tree3 i).stats.unobserved_simulations =
      (nodeAt ms.tree i).stats.unobserved_simulations
    rw [hun3 i, hT2un i, hun1 i]
    by_cases h : i ∈ path
    · simp [h]
    · simp [h]

end Chessatk

namespace Chessatk

/-- C1: code bug. In `queen_movegen` the attack sets are combined with `&`
(intersection) instead of `|` (union): on a board with a lone white queen on d4
(square 27), queen move generation yields no moves at all, while the spec's
bishop-union-rook attack set (masked by the mover's own pieces) is nonempty. -/
theorem c1_queen_intersection_bug :
    c1Pos.squares.pieces WHITE QUEEN = shl64 1 27
    ∧ queenMovegen c1Pos WHITE = []
    ∧ addMoves c1Pos WHITE 27
        ((bishopAttacks c1Pos 27 ||| rookAttacks c1Pos 27)
          &&& not64 (c1Pos.squares.all_pieces WHITE)) ≠ [] := by decide

/-- C2: code bug. The pawn-capture promotion masks compute
`regular_attacks & RANK_8 & !RANK_8`, which is always empty, and the regular
attack set keeps its promotion-rank bits: a white pawn capture onto a8 (square 56)
yields exactly one move with `promotion := none` instead of four promotion moves,
and likewise a black pawn capture onto h1 (square 7). -/
theorem c2_capture_promotion_bug :
    ((c2Pos.squares.attackable BLACK).testBit 56 = true)
    ∧ (whitePawnMovegen c2Pos).filter (fun m => m.destination == 56)
        = [Move.mk 49 56 none]
    ∧ ((c2bPos.squares.attackable WHITE).testBit 7 = true)
    ∧ (blackPawnMovegen c2bPos).filter (fun m => m.destination == 7)
        = [Move.mk 14 7 none] := by decide

/-- C3: confirmed. When the side to move plays a pawn move whose destination is the
stored en-passant square (and the move is not a double push), `apply_move` clears the
opponent pawn's bit on the square one rank behind the destination: destination − 8
for a white capturer, destination + 8 for a black capturer. -/
theorem c3_en_passant_removes_pawn :
    (∀ (p : Position) (m : Move),
        m.origin < 64 → 8 ≤ m.destination → m.destination < 64 →
        m.destination ≠ m.origin + 16 →
        shl64 1 m.destination = p.en_passant_square →
        p.squares.all_pieces BLACK &&& shl64 1 m.origin = 0 →
        0 < p.squares.pieces WHITE PAWN &&& shl64 1 m.origin →
        (p.squares.pieces BLACK PAWN).testBit (m.destination - 8) = true →
        ((p.applyMove m).squares.pieces BLACK PAWN).testBit (m.destination - 8) = false)
    ∧ (∀ (p : Position) (m : Move),
        m.origin < 64 → m.destination < 56 →
        m.origin ≠ m.destination + 16 →
        shl64 1 m.destination = p.en_passant_square →
        0 < p.squares.all_pieces BLACK &&& shl64 1 m.origin →
        0 < p.squares.pieces BLACK PAWN &&& shl64 1 m.origin →
        (p.squares.pieces WHITE PAWN).testBit (m.destination + 8) = true →
        ((p.applyMove m).squares.pieces WHITE PAWN).testBit (m.destination + 8) = false) :=
  ⟨c3_test, c3b_test⟩

/-- C3 witness: in the position after 1. e4 a6 2. e5 d5 (FEN en-passant square d6),
the black pawn sits on d5 (square 35); the en-passant capture e5xd6 removes it. -/
theorem c3_en_passant_removes_pawn_witness :
    (c3Pos.squares.pieces BLACK PAWN).testBit 35 = true
    ∧ ((c3Pos.applyMove c3Move).squares.pieces BLACK PAWN).testBit 35 = false :=
  ⟨by decide,
   c3_en_passant_removes_pawn.1 c3Pos c3Move (by decide) (by decide) (by decide)
     (by decide) (by decide) (by decide) (by decide) (by decide)⟩

/-- C4: confirmed. For a move that is neither a capture nor a pawn move,
`State::apply_move` appends the previous position to `prior_positions` (retaining the
history), and the knight shuffle b1c3 b8c6 c3b1 c6b8 played twice from the start
position ends in a state whose status is Draw by threefold repetition. -/
theorem c4_history_appended_and_threefold :
    (∀ (s : State) (m : Move),
        s.position.squares.occupied &&& shl64 1 m.destination = 0 →
        (s.position.squares.pieces WHITE PAWN ||| s.position.squares.pieces BLACK PAWN)
            &&& shl64 1 m.origin = 0 →
        (s.applyMove m).prior_positions = s.prior_positions ++ [s.position])
    ∧ repetitionState.status (repetitionState.genMoves true) = GameStatus.Draw :=
  ⟨fun s m h1 h2 => (c4core s m h1 h2).1, by decide⟩

/-- C4 witness: from the start position, the non-capture knight move b1c3 appends the
start position to the (empty) history. -/
theorem c4_history_appended_witness :
    (State.fromStart.applyMove (Move.mk 1 18 none)).prior_positions
      = State.fromStart.prior_positions ++ [State.fromStart.position] :=
  c4_history_appended_and_threefold.1 State.fromStart (Move.mk 1 18 none)
    (by decide) (by decide)

/-- C5 witness: the amended revocation characterisation instantiated at the
double-rook position and the corner-to-corner move a1→a8. -/
theorem c5_castle_revocation_witness :
    (c5Pos.applyMove c5Move).white_kingside_castle
        = (c5Pos.white_kingside_castle
            && !(decide (c5Move.origin = 7 ∨ c5Move.destination = 7)))
    ∧ (c5Pos.applyMove c5Move).white_queenside_castle
        = (if c5Move.origin = 7 ∨ c5Move.destination = 7 then c5Pos.white_queenside_castle
           else c5Pos.white_queenside_castle
            && !(decide (c5Move.origin = 0 ∨ c5Move.destination = 0)))
    ∧ (c5Pos.applyMove c5Move).black_kingside_castle
        = (if (c5Move.origin = 7 ∨ c5Move.destination = 7)
              ∨ (c5Move.origin = 0 ∨ c5Move.destination = 0)
           then c5Pos.black_kingside_castle
           else c5Pos.black_kingside_castle
            && !(decide (c5Move.origin = 63 ∨ c5Move.destination = 63)))
    ∧ (c5Pos.applyMove c5Move).black_queenside_castle
        = (if (c5Move.origin = 7 ∨ c5Move.destination = 7)
              ∨ (c5Move.origin = 0 ∨ c5Move.destination = 0)
              ∨ (c5Move.origin = 63 ∨ c5Move.destination = 63)
           then c5Pos.black_queenside_castle
           else c5Pos.black_queenside_castle
            && !(decide (c5Move.origin = 56 ∨ c5Move.destination = 56))) :=
  c5_castle_revocation_chain c5Pos c5Move (by decide)

/-- C5 counterexample: the rook capture a1xa8 touches both a1 and a8, yet
`black_queenside_castle` survives: the revocation conditions form an else-if chain,
so the a1 branch shadows the a8 branch. This refutes the claim that the four
conditions are checked independently. -/
theorem c5_castle_revocation_counterexample :
    c5Pos.black_queenside_castle = true
    ∧ c5Move.origin = 0 ∧ c5Move.destination = 56
    ∧ (c5Pos.applyMove c5Move).white_queenside_castle = false
    ∧ (c5Pos.applyMove c5Move).black_queenside_castle = true := by decide

/-- C6 witness: the amended last-argmax characterisation instantiated at a two-move
list with equal scores. -/
theorem c6_last_max_witness :
    ∃ (m : Move) (q : ℚ) (l1 l2 : List (Move × ℚ)),
      searchCollect [(c6MoveA, (1 : ℚ)), (c6MoveB, (1 : ℚ))] = ((q : WithBot ℚ), some m)
      ∧ [(c6MoveA, (1 : ℚ)), (c6MoveB, (1 : ℚ))] = l1 ++ (m, q) :: l2
      ∧ (∀ x ∈ l1, x.2 ≤ q) ∧ (∀ x ∈ l2, x.2 < q) :=
  c6_last_max_collected [(c6MoveA, (1 : ℚ)), (c6MoveB, (1 : ℚ))] (by decide)

/-- C6 counterexample: with two root moves of equal score, the collection loop's
`score >= max` comparison overwrites the earlier move, so the second (last) move is
returned — refuting the first-encountered tie-break. -/
theorem c6_first_tiebreak_counterexample :
    searchCollect [(c6MoveA, (1 : ℚ)), (c6MoveB, (1 : ℚ))]
      = (((1 : ℚ) : WithBot ℚ), some c6MoveB)
    ∧ c6MoveB ≠ c6MoveA := by decide

/-- C7: corrected. After a GoDepth or GoTime search completes, the stored evaluation
that QueryEval replies with is updated (to the negated root score) only when the side
to move was Black; with White to move the handler leaves `last_eval` unchanged, so
QueryEval returns the stale previous value. -/
theorem c7_eval_updated_only_for_black :
    ∀ (searchResult : ℚ × Option Move) (depthResults : List (ℚ × Option Move))
      (e : EngineLoopState),
      handleQueryEval (handleGoDepth searchResult e).1 =
        EngineMessage.CurrentEval
          (if e.state.position.side_to_move = Color.Black then -searchResult.1
           else e.last_eval)
      ∧ handleQueryEval (handleGoTime depthResults e).1 =
          EngineMessage.CurrentEval
            (if e.state.position.side_to_move = Color.Black
             then -(depthResults.foldl (fun _ r => r) ((0 : ℚ), (none : Option Move))).1
             else e.last_eval) :=
  fun _ _ _ => ⟨rfl, rfl⟩

/-- C7 counterexample: from the start position (White to move) a completed GoDepth
search with root score 5 leaves the stored evaluation at its old value 0, so
QueryEval replies neither the root score nor its negation. -/
theorem c7_stale_eval_counterexample :
    c7Loop.state.position.side_to_move = Color.White
    ∧ handleQueryEval (handleGoDepth ((5 : ℚ), none) c7Loop).1
        = EngineMessage.CurrentEval 0
    ∧ (0 : ℚ) ≠ 5 ∧ (0 : ℚ) ≠ -5 := by decide

/-- C8: corrected. A GoDepth message sent to the MCTS engine reaches
`unreachable!()`, which panics the engine task (modelled as `Except.error` with the
panic message) — for every oracle, depth and loop state. -/
theorem c8_godepth_panics :
    ∀ (goTimeOracle : MctsLoopState → Option (Move × ℚ) × MctsState) (d : Nat)
      (c : MctsLoopState),
      mctsEngineStep goTimeOracle (InterfaceMessage.GoDepth d) c
        = Except.error ("internal error: entered unreachable code") :=
  fun _ _ _ => rfl

/-- C8 counterexample: a concrete GoDepth step errors out and in particular returns
no `Except.ok` continuation — refuting the claim that the engine ignores the message
or replies `BestMove(None)` and continues. -/
theorem c8_godepth_counterexample :
    mctsEngineStep c8Oracle (InterfaceMessage.GoDepth 1) c8Loop
      = Except.error ("internal error: entered unreachable code")
    ∧ ∀ r, mctsEngineStep c8Oracle (InterfaceMessage.GoDepth 1) c8Loop ≠ Except.ok r :=
  ⟨rfl, fun _ h => Except.noConfusion h⟩

/-- C9: corrected (amended). The two Board mutations preserve the representation
invariant under their intended preconditions: `remove_piece` when the removed bit is
actually set in that piece's board, `add_piece` when the destination square is empty.
(The unconditional claim over all generator-produced moves is refuted by the castling
counterexample.) -/
theorem c9_mutations_preserve_invariant :
    (∀ (b : Board) (c0 : Fin 2) (p0 : Fin 6) (i : Nat),
        boardInv b → i < 64 → (b.pieces c0 p0).testBit i = true →
        boardInv (b.removePiece c0 p0 i))
    ∧ (∀ (b : Board) (c0 : Fin 2) (p0 : Fin 6) (i : Nat),
        boardInv b → i < 64 → b.occupied.testBit i = false →
        boardInv (b.addPiece c0 p0 i)) :=
  ⟨boardInv_removePiece, boardInv_addPiece⟩

/-- C9 witness: removing the white a2 pawn from the start position preserves the
invariant. -/
theorem c9_mutations_preserve_invariant_witness :
    boardInv (fenPosition START_FEN).squares
    ∧ boardInv ((fenPosition START_FEN).squares.removePiece WHITE PAWN 8) :=
  ⟨by decide,
   c9_mutations_preserve_invariant.1 (fenPosition START_FEN).squares WHITE PAWN 8
     (by decide) (by decide) (by decide)⟩

/-- C9 counterexample: with a bishop on h1 but the white-kingside flag set, castling
e1g1 is generator-produced, and `apply_move`'s rook shuffle XORs a phantom rook bit
onto h1: the resulting boards are no longer pairwise disjoint. The invariant is not
preserved along every generator-produced move from a parsed FEN. -/
theorem c9_invariant_counterexample :
    boardInv c9Pos.squares
    ∧ c9Move ∈ c9Pos.genMovesColor Color.White true
    ∧ ¬ boardInv ((c9Pos.applyMove c9Move).squares) := by decide

/-- C10: confirmed. One complete sequential MCTS iteration restores every node's
`unobserved_simulations` counter to its pre-iteration value (the back-propagation
walk decrements exactly the parent chain that selection incremented, the newly
expanded child included); hence if all counters were zero before the iteration they
are all zero after it. The root is unchanged and the arena grows by at most one
node. -/
theorem c10_unobserved_restored (shuffleO : Nat → List Nat → List Nat)
    (pickO : Nat → List Nat → Nat) (simStatus : GameStatus)
    (hsh : ∀ k l, (shuffleO k l).Perm l)
    (hpk : ∀ k l, l ≠ [] → pickO k l ∈ l)
    (ms : MctsState) (state : State)
    (hwf : treeWF ms.tree) (hroot : ms.root < ms.tree.length) :
    ∃ ms', mctsIteration shuffleO pickO simStatus ms state = some ms' ∧
      ms'.root = ms.root ∧
      ms.tree.length ≤ ms'.tree.length ∧ ms'.tree.length ≤ ms.tree.length + 1 ∧
      (∀ i, i < ms.tree.length →
        (nodeAt ms'.tree i).parent = (nodeAt ms.tree i).parent) ∧
      (∀ i, (nodeAt ms'.tree i).stats.unobserved_simulations =
        (nodeAt ms.tree i).stats.unobserved_simulations) ∧
      ((∀ i, (nodeAt ms.tree i).stats.unobserved_simulations = 0) →
        ∀ i, (nodeAt ms'.tree i).stats.unobserved_simulations = 0) := by
  obtain ⟨ms', h1, h2, h3, h4, h5, h6⟩ :=
    mctsIteration_unobs shuffleO pickO simStatus hsh hpk ms state hwf hroot
  exact ⟨ms', h1, h2, h3, h4, h5, h6, fun hz i => by rw [h6 i]; exact hz i⟩

/-- C10 witness: the iteration run on a single-node arena rooted at node 0 from the
start position, with the identity shuffle and first-child pick oracles. -/
theorem c10_unobserved_restored_witness :
    ∃ ms', mctsIteration (fun _ l => l) (fun _ l => l.headD 0) GameStatus.Draw
        c10MState State.fromStart = some ms' ∧
      ms'.root = c10MState.root ∧
      c10MState.tree.length ≤ ms'.tree.length
        ∧ ms'.tree.length ≤ c10MState.tree.length + 1 ∧
      (∀ i, i < c10MState.tree.length →
        (nodeAt ms'.tree i).parent = (nodeAt c10MState.tree i).parent) ∧
      (∀ i, (nodeAt ms'.tree i).stats.unobserved_simulations =
        (nodeAt c10MState.tree i).stats.unobserved_simulations) ∧
      ((∀ i, (nodeAt c10MState.tree i).stats.unobserved_simulations = 0) →
        ∀ i, (nodeAt ms'.tree i).stats.unobserved_simulations = 0) :=
  c10_unobserved_restored (fun _ l => l) (fun _ l => l.headD 0) GameStatus.Draw
    (fun _ l => List.Perm.refl l)
    (fun _ l h => by
      cases l with
      | nil => exact absurd rfl h
      | cons a t => exact List.mem_cons_self a t)
    c10MState State.fromStart
    (by
      intro i hi c hc
      have hi0 : i = 0 := by
        have h1 : c10MState.tree.length = 1 := rfl
        omega
      subst hi0
      have hch : (nodeAt c10MState.tree 0).children = [] := rfl
      rw [hch] at hc
      exact absurd hc (List.not_mem_nil c))
    (by decide)

end Chessatk
